import Mathlib

/-!
# Verification of the market-data decision engine

A shallow embedding of the Python sources of the `ascend-internship-test`
repository (event pipeline: time alignment, sanitization, order-book replay,
data-trust scoring, hypothesis validation, decision reduction, statistics),
together with theorems settling the specification claims.

Modelling conventions, used uniformly below:
* Python `dict`s are association lists that preserve insertion order;
  assignment to an existing key updates in place, to a fresh key appends.
* Python floats are modelled as rationals (`ℚ`), timestamps as integers (`ℤ`).
* Python's `heapq` min-heap is modelled as a list kept sorted by the heap key
  `(event_ts, tie)`; `heappush` is ordered insertion, `heappop` takes the head.
  This is observationally identical to the heap's pop order.
* Fallible dictionary subscripts (`d[k]`, which raise `KeyError`) and the
  unbound-variable slip in `sanitization.py` are modelled with `Except PyErr`.
* Numeric interpolation inside reason strings (Python f-strings such as
  `f"q_rate={q_rate:.4f}>=…"`) is abbreviated to the fixed textual tag of the
  branch; the branching structure and every literal reason word used by the
  specification (`crossed_market`, `repair_exchange_default`, …) are kept.
-/

namespace Engine

/-- The four market-data streams (`src/adapters/base.py`, `class Stream`). -/
inductive Stream where
  | trades
  | orderbook
  | liquidations
  | ticker
deriving DecidableEq, Repr

/-- `Stream.value` strings (`Stream(str, Enum)` values). -/
def Stream.value : Stream → String
  | .trades => "trades"
  | .orderbook => "orderbook"
  | .liquidations => "liquidations"
  | .ticker => "ticker"

/-- Dict iteration order of `{s: … for s in Stream}`: enum declaration order. -/
def streamOrder : List Stream := [.trades, .orderbook, .liquidations, .ticker]

/-- Dynamic payload values stored under the string keys of an event's `data`
dict. `vnull` is Python `None`; numerics (int and float) are `vnum`. -/
inductive Val where
  | vnull
  | vnum (q : ℚ)
  | vstr (s : String)
  | vbool (b : Bool)
deriving DecidableEq, Repr

/-- Python truthiness of a payload value (`if is_snapshot:`). -/
def Val.truthy : Val → Bool
  | .vnull => false
  | .vnum q => q ≠ 0
  | .vstr s => s ≠ ""
  | .vbool b => b

/-- An event record (`src/adapters/base.py`, `@dataclass Event`). `event_ts`
is `Optional` in behaviour (the aligner checks it for `None`). -/
structure Event where
  stream : Stream
  exchange : Option String
  symbol : Option String
  event_ts : Option ℤ
  ingest_ts : Option ℤ
  event_id : Option String
  data : List (String × Val)
deriving DecidableEq, Repr

/-- Errors raised by the modelled Python code. -/
inductive PyErr where
  | keyError (k : String)
  | unboundLocal (n : String)
deriving DecidableEq, Repr

/-- First binding of `k` (dict lookup); `none` means the key is absent. -/
def lookupKey (d : List (String × Val)) (k : String) : Option Val :=
  match d.find? (fun kv => kv.1 = k) with
  | some kv => some kv.2
  | none => none

/-- Python `d.get(k)`: `none` when the key is absent *or* bound to `None`. -/
def pyGet (d : List (String × Val)) (k : String) : Option Val :=
  match lookupKey d k with
  | some .vnull => none
  | some v => some v
  | none => none

/-- Python `k in d`. -/
def hasKey (d : List (String × Val)) (k : String) : Bool :=
  (lookupKey d k).isSome

/-- Python `d[k]`: raises `KeyError` when the key is absent. -/
def getItem (d : List (String × Val)) (k : String) : Except PyErr Val :=
  match lookupKey d k with
  | some v => .ok v
  | none => .error (.keyError k)

/-- Dict assignment `d[k] = v`: update in place when present, append when
fresh (insertion order of Python dicts). -/
def assocInsert {κ α : Type} [DecidableEq κ]
    (m : List (κ × α)) (k : κ) (v : α) : List (κ × α) :=
  if m.any (fun kv => kv.1 = k) then
    m.map (fun kv => if kv.1 = k then (k, v) else kv)
  else
    m ++ [(k, v)]

/-- `SanitizationState` (`src/core/types.py`). -/
inductive SanitizationState where
  | ACCEPT
  | REPAIR
  | QUARANTINE
deriving DecidableEq, Repr

/-- `DataTrustState` (`src/core/types.py`). -/
inductive DataTrustState where
  | TRUSTED
  | DEGRADED
  | UNTRUSTED
deriving DecidableEq, Repr

/-- `HypothesisState` (`src/core/types.py`). -/
inductive HypothesisState where
  | VALID
  | WEAKENING
  | INVALID
deriving DecidableEq, Repr

/-- `DecisionState` (`src/core/types.py`). -/
inductive DecisionState where
  | ALLOWED
  | RESTRICTED
  | HALTED
deriving DecidableEq, Repr

/-- `DecisionMachine.compute` (`src/core/decision.py`, lines 11–22): the
RESTRICTED test is evaluated first and returns early; only then the
UNTRUSTED/INVALID test; otherwise ALLOWED. -/
def DecisionMachine.compute (data_trust : DataTrustState)
    (hypothesis : HypothesisState) : DecisionState :=
  if data_trust = .DEGRADED ∨ hypothesis = .WEAKENING then
    .RESTRICTED
  else if data_trust = .UNTRUSTED ∨ hypothesis = .INVALID then
    .HALTED
  else
    .ALLOWED

/-- C1: the spec table demands HALTED whenever `data_trust = UNTRUSTED` or
`hypothesis = INVALID`, overriding the RESTRICTED rows. The code's early
return for the RESTRICTED test makes `(UNTRUSTED, WEAKENING)` and
`(DEGRADED, INVALID)` come out RESTRICTED instead of the table's HALTED. -/
theorem c1_decision_table_violated :
    DecisionMachine.compute .UNTRUSTED .WEAKENING = .RESTRICTED ∧
    DecisionMachine.compute .DEGRADED .INVALID = .RESTRICTED ∧
    DecisionMachine.compute .UNTRUSTED .WEAKENING ≠ .HALTED := by
  refine ⟨rfl, rfl, ?_⟩
  decide

/-- `BookTop` (`src/orderbook/orderbook.py`). -/
structure BookTop where
  best_bid : Option ℚ
  best_ask : Option ℚ
  mid : Option ℚ
  spread : Option ℚ
deriving DecidableEq, Repr

/-- Price→amount ladder: a dict modelled as an insertion-ordered association
list (`self.bids` / `self.asks`). -/
abbrev Levels := List (ℚ × ℚ)

/-- Smallest price key of a ladder (`min(levels.keys())`-style fold). -/
def minKey : Levels → Option ℚ
  | [] => none
  | p :: ps =>
    match minKey ps with
    | none => some p.1
    | some q => some (min p.1 q)

/-- Largest price key of a ladder. -/
def maxKey : Levels → Option ℚ
  | [] => none
  | p :: ps =>
    match maxKey ps with
    | none => some p.1
    | some q => some (max p.1 q)

/-- Remove the level at the lowest (`lowest = true`) or highest price.
`OrderBook._trim` pops the `n` lowest bid prices / highest ask prices from a
sorted key list; popping them one extreme at a time reaches the same dict. -/
def dropExtreme (lowest : Bool) (m : Levels) : Levels :=
  match (if lowest then minKey m else maxKey m) with
  | none => m
  | some k => m.filter (fun p => p.1 ≠ k)

/-- Repeatedly drop the extreme price while the ladder exceeds `limit`
(fuelled by the starting length, which bounds the number of drops). -/
def trimTo (limit : ℕ) (lowest : Bool) : ℕ → Levels → Levels
  | 0, m => m
  | fuel + 1, m =>
    if m.length ≤ limit then m
    else trimTo limit lowest fuel (dropExtreme lowest m)

/-- `OrderBook` (`src/orderbook/orderbook.py`). -/
structure OrderBook where
  depth_limit : ℕ
  bids : Levels
  asks : Levels
  last_update_us : Option ℤ
  last_event_ts : Option ℤ
deriving DecidableEq, Repr

/-- `OrderBook.__init__`. -/
def OrderBook.init (depth_limit : ℕ) : OrderBook :=
  { depth_limit := depth_limit, bids := [], asks := [],
    last_update_us := none, last_event_ts := none }

/-- `OrderBook._trim` (lines 30–40): no-op when `depth_limit <= 0`; else drop
lowest bids / highest asks down to `depth_limit` levels. -/
def OrderBook.trim (b : OrderBook) : OrderBook :=
  if b.depth_limit = 0 then b
  else
    { b with bids := trimTo b.depth_limit true b.bids.length b.bids,
             asks := trimTo b.depth_limit false b.asks.length b.asks }

/-- Shared tail of `apply_snapshot`/`apply_delta`: trim, stamp
`last_update_us`, stamp `last_event_ts` if given (trim never touches the
timestamp fields, so reading `b.last_event_ts` is the untrimmed value). -/
def OrderBook.stamp (b : OrderBook) (now_us : ℤ) (event_ts : Option ℤ) :
    OrderBook :=
  { b.trim with last_update_us := some now_us,
                last_event_ts := match event_ts with
                                 | some t => some t
                                 | none => b.last_event_ts }

/-- `OrderBook.apply_snapshot` (lines 42–51): unconditionally write `amount`
at `price` on the given side (`side == "bid"` selects bids, anything else
asks), then trim and stamp. -/
def OrderBook.apply_snapshot (b : OrderBook) (side : String)
    (price amount : ℚ) (now_us : ℤ) (event_ts : Option ℤ) : OrderBook :=
  (if side = "bid" then { b with bids := assocInsert b.bids price amount }
   else { b with asks := assocInsert b.asks price amount }).stamp
    now_us event_ts

/-- `OrderBook.apply_delta` (lines 53–63): remove the level when
`amount <= 0`, else write it; then trim and stamp. -/
def OrderBook.apply_delta (b : OrderBook) (side : String)
    (price amount : ℚ) (now_us : ℤ) (event_ts : Option ℤ) : OrderBook :=
  (if side = "bid" then
     { b with bids := if amount ≤ 0 then b.bids.filter (fun p => p.1 ≠ price)
                      else assocInsert b.bids price amount }
   else
     { b with asks := if amount ≤ 0 then b.asks.filter (fun p => p.1 ≠ price)
                      else assocInsert b.asks price amount }).stamp
    now_us event_ts

/-- `OrderBook.clear` (lines 65–67). -/
def OrderBook.clear (b : OrderBook) : OrderBook :=
  { b with bids := [], asks := [] }

/-- `_best_from_levels` (lines 13–17): extreme price plus its amount. -/
def bestFromLevels (levels : Levels) (isBid : Bool) : Option (ℚ × ℚ) :=
  match (if isBid then maxKey levels else minKey levels) with
  | none => none
  | some px =>
    match levels.find? (fun p => p.1 = px) with
    | some p => some (px, p.2)
    | none => none

/-- `OrderBook.top` (lines 69–80). -/
def OrderBook.top (b : OrderBook) : BookTop :=
  let best_bid := (bestFromLevels b.bids true).map Prod.fst
  let best_ask := (bestFromLevels b.asks false).map Prod.fst
  match best_bid, best_ask with
  | some bb, some ba =>
    { best_bid := some bb, best_ask := some ba,
      mid := some ((bb + ba) / 2), spread := some (ba - bb) }
  | bb, ba => { best_bid := bb, best_ask := ba, mid := none, spread := none }

/-- One call on the book, for sequences of operations (claim C4). -/
inductive BookOp where
  | snap (side : String) (price amount : ℚ) (now_us : ℤ) (event_ts : Option ℤ)
  | delta (side : String) (price amount : ℚ) (now_us : ℤ) (event_ts : Option ℤ)
  | clear
deriving DecidableEq, Repr

/-- Apply one `BookOp`. -/
def BookOp.apply (b : OrderBook) : BookOp → OrderBook
  | .snap side price amount now_us event_ts =>
    b.apply_snapshot side price amount now_us event_ts
  | .delta side price amount now_us event_ts =>
    b.apply_delta side price amount now_us event_ts
  | .clear => b.clear

/-- Run a sequence of book operations. -/
def runBook (b : OrderBook) : List BookOp → OrderBook
  | [] => b
  | op :: ops => runBook (op.apply b) ops

lemma mem_assocInsert {κ α : Type} [DecidableEq κ] {m : List (κ × α)}
    {k : κ} {v : α} {x : κ × α} (hx : x ∈ assocInsert m k v) :
    x = (k, v) ∨ x ∈ m := by
  unfold assocInsert at hx
  split at hx
  · rcases List.mem_map.mp hx with ⟨y, hy, heq⟩
    by_cases h : y.1 = k
    · simp only [if_pos h] at heq
      left; exact heq.symm
    · simp only [if_neg h] at heq
      right; exact heq ▸ hy
  · rcases List.mem_append.mp hx with h | h
    · right; exact h
    · left; simpa using h

lemma length_assocInsert {κ α : Type} [DecidableEq κ] (m : List (κ × α))
    (k : κ) (v : α) : (assocInsert m k v).length ≤ m.length + 1 := by
  unfold assocInsert
  split
  · simp
  · simp

lemma minKey_mem {m : Levels} {k : ℚ} (h : minKey m = some k) :
    ∃ pa ∈ m, pa.1 = k := by
  induction m with
  | nil => simp [minKey] at h
  | cons p ps ih =>
    rw [minKey] at h
    cases hps : minKey ps with
    | none =>
      rw [hps] at h
      exact ⟨p, by simp, (Option.some_inj.mp h)⟩
    | some q =>
      rw [hps] at h
      have hk : min p.1 q = k := Option.some_inj.mp h
      rcases min_choice p.1 q with hm | hm
      · exact ⟨p, by simp, by rw [← hk, hm]⟩
      · have hqk : q = k := hm.symm.trans hk
        rcases ih (by rw [hps, hqk]) with ⟨pa, hpa, hpak⟩
        exact ⟨pa, List.mem_cons_of_mem _ hpa, hpak⟩

lemma maxKey_mem {m : Levels} {k : ℚ} (h : maxKey m = some k) :
    ∃ pa ∈ m, pa.1 = k := by
  induction m with
  | nil => simp [maxKey] at h
  | cons p ps ih =>
    rw [maxKey] at h
    cases hps : maxKey ps with
    | none =>
      rw [hps] at h
      exact ⟨p, by simp, (Option.some_inj.mp h)⟩
    | some q =>
      rw [hps] at h
      have hk : max p.1 q = k := Option.some_inj.mp h
      rcases max_choice p.1 q with hm | hm
      · exact ⟨p, by simp, by rw [← hk, hm]⟩
      · have hqk : q = k := hm.symm.trans hk
        rcases ih (by rw [hps, hqk]) with ⟨pa, hpa, hpak⟩
        exact ⟨pa, List.mem_cons_of_mem _ hpa, hpak⟩

lemma mem_dropExtreme {lowest : Bool} {m : Levels} {x : ℚ × ℚ}
    (hx : x ∈ dropExtreme lowest m) : x ∈ m := by
  unfold dropExtreme at hx
  split at hx
  · exact hx
  · exact (List.mem_filter.mp hx).1

lemma minKey_cons_isSome (p : ℚ × ℚ) (ps : Levels) :
    (minKey (p :: ps)).isSome := by
  rw [minKey]
  cases minKey ps <;> simp

lemma maxKey_cons_isSome (p : ℚ × ℚ) (ps : Levels) :
    (maxKey (p :: ps)).isSome := by
  rw [maxKey]
  cases maxKey ps <;> simp

lemma dropExtreme_length_lt {lowest : Bool} {m : Levels} (hm : m ≠ []) :
    (dropExtreme lowest m).length < m.length := by
  obtain ⟨k, hk, pa, hpa, hpak⟩ :
      ∃ k, (if lowest then minKey m else maxKey m) = some k ∧
        ∃ pa ∈ m, pa.1 = k := by
    rcases m with _ | ⟨p, ps⟩
    · exact absurd rfl hm
    · cases lowest
      · cases hmax : maxKey (p :: ps) with
        | none =>
          have := maxKey_cons_isSome p ps
          rw [hmax] at this
          simp at this
        | some k => exact ⟨k, by simp [hmax], maxKey_mem hmax⟩
      · cases hmin : minKey (p :: ps) with
        | none =>
          have := minKey_cons_isSome p ps
          rw [hmin] at this
          simp at this
        | some k => exact ⟨k, by simp [hmin], minKey_mem hmin⟩
  unfold dropExtreme
  rw [hk]
  refine List.length_filter_lt_length_iff_exists.mpr ⟨pa, hpa, ?_⟩
  simp [hpak]

lemma trimTo_length (limit : ℕ) (lowest : Bool) :
    ∀ (fuel : ℕ) (m : Levels), m.length ≤ limit + fuel →
      (trimTo limit lowest fuel m).length ≤ limit := by
  intro fuel
  induction fuel with
  | zero => intro m h; simpa [trimTo] using h
  | succ n ih =>
    intro m h
    rw [trimTo]
    split
    · assumption
    · next hgt =>
      apply ih
      have hne : m ≠ [] := by
        intro he
        rw [he] at hgt
        simp at hgt
      have := @dropExtreme_length_lt lowest m hne
      omega

lemma mem_trimTo {limit : ℕ} {lowest : Bool} :
    ∀ {fuel : ℕ} {m : Levels} {x : ℚ × ℚ},
      x ∈ trimTo limit lowest fuel m → x ∈ m := by
  intro fuel
  induction fuel with
  | zero => intro m x hx; simpa [trimTo] using hx
  | succ n ih =>
    intro m x hx
    rw [trimTo] at hx
    split at hx
    · exact hx
    · exact mem_dropExtreme (ih hx)

/-- Invariant of claim C4, relative to the configured depth. -/
def BookInv (d : ℕ) (b : OrderBook) : Prop :=
  b.depth_limit = d ∧ (∀ pa ∈ b.bids, 0 < pa.2) ∧ (∀ pa ∈ b.asks, 0 < pa.2) ∧
  b.bids.length ≤ d ∧ b.asks.length ≤ d

lemma stamp_inv {d : ℕ} (hd : d ≠ 0) {b : OrderBook} (hdl : b.depth_limit = d)
    (hb : ∀ pa ∈ b.bids, 0 < pa.2) (ha : ∀ pa ∈ b.asks, 0 < pa.2)
    (now_us : ℤ) (event_ts : Option ℤ) : BookInv d (b.stamp now_us event_ts) := by
  have htd : b.depth_limit ≠ 0 := by rw [hdl]; exact hd
  have hbids : (b.stamp now_us event_ts).bids =
      trimTo b.depth_limit true b.bids.length b.bids := by
    show b.trim.bids = _
    unfold OrderBook.trim
    rw [if_neg htd]
  have hasks : (b.stamp now_us event_ts).asks =
      trimTo b.depth_limit false b.asks.length b.asks := by
    show b.trim.asks = _
    unfold OrderBook.trim
    rw [if_neg htd]
  have hdep : (b.stamp now_us event_ts).depth_limit = d := by
    show b.trim.depth_limit = d
    unfold OrderBook.trim
    split <;> simp [hdl]
  refine ⟨hdep, ?_, ?_, ?_, ?_⟩
  · intro pa hpa; rw [hbids] at hpa; exact hb pa (mem_trimTo hpa)
  · intro pa hpa; rw [hasks] at hpa; exact ha pa (mem_trimTo hpa)
  · rw [hbids, hdl]; exact trimTo_length d true _ _ (by omega)
  · rw [hasks, hdl]; exact trimTo_length d false _ _ (by omega)

lemma inv_apply_snapshot {d : ℕ} (hd : d ≠ 0) {b : OrderBook}
    (hb : BookInv d b) {amount : ℚ} (hamt : 0 < amount) (side : String)
    (price : ℚ) (now_us : ℤ) (event_ts : Option ℤ) :
    BookInv d (b.apply_snapshot side price amount now_us event_ts) := by
  obtain ⟨hdl, hbid, hask, _, _⟩ := hb
  unfold OrderBook.apply_snapshot
  split
  · refine stamp_inv hd ?_ ?_ ?_ now_us event_ts
    · exact hdl
    · show ∀ pa ∈ assocInsert b.bids price amount, 0 < pa.2
      intro pa hpa
      rcases mem_assocInsert hpa with h | h
      · rw [h]; exact hamt
      · exact hbid pa h
    · exact hask
  · refine stamp_inv hd ?_ ?_ ?_ now_us event_ts
    · exact hdl
    · exact hbid
    · show ∀ pa ∈ assocInsert b.asks price amount, 0 < pa.2
      intro pa hpa
      rcases mem_assocInsert hpa with h | h
      · rw [h]; exact hamt
      · exact hask pa h

lemma inv_apply_delta {d : ℕ} (hd : d ≠ 0) {b : OrderBook}
    (hb : BookInv d b) (side : String) (price amount : ℚ) (now_us : ℤ)
    (event_ts : Option ℤ) :
    BookInv d (b.apply_delta side price amount now_us event_ts) := by
  obtain ⟨hdl, hbid, hask, _, _⟩ := hb
  unfold OrderBook.apply_delta
  split
  · refine stamp_inv hd ?_ ?_ ?_ now_us event_ts
    · exact hdl
    · show ∀ pa ∈ (if amount ≤ 0 then b.bids.filter (fun p => p.1 ≠ price)
          else assocInsert b.bids price amount), 0 < pa.2
      split
      · intro pa hpa; exact hbid pa (List.mem_filter.mp hpa).1
      · next hpos =>
        intro pa hpa
        rcases mem_assocInsert hpa with h | h
        · rw [h]; exact lt_of_not_le hpos
        · exact hbid pa h
    · exact hask
  · refine stamp_inv hd ?_ ?_ ?_ now_us event_ts
    · exact hdl
    · exact hbid
    · show ∀ pa ∈ (if amount ≤ 0 then b.asks.filter (fun p => p.1 ≠ price)
          else assocInsert b.asks price amount), 0 < pa.2
      split
      · intro pa hpa; exact hask pa (List.mem_filter.mp hpa).1
      · next hpos =>
        intro pa hpa
        rcases mem_assocInsert hpa with h | h
        · rw [h]; exact lt_of_not_le hpos
        · exact hask pa h

/-- Says that a snapshot operation carries a strictly positive amount
(the condition the counterexample below forces onto claim C4). -/
def BookOp.snapPositive : BookOp → Prop
  | .snap _ _ amount _ _ => 0 < amount
  | .delta _ _ _ _ _ => True
  | .clear => True

lemma inv_runBook {d : ℕ} (hd : d ≠ 0) :
    ∀ (ops : List BookOp) (b : OrderBook), BookInv d b →
      (∀ op ∈ ops, op.snapPositive) → BookInv d (runBook b ops) := by
  intro ops
  induction ops with
  | nil => intro b hb _; exact hb
  | cons op rest ih =>
    intro b hb hops
    rw [runBook]
    refine ih (op.apply b) ?_ (fun o ho => hops o (List.mem_cons_of_mem _ ho))
    have hop := hops op (List.mem_cons_self _ _)
    cases op with
    | snap side price amount now_us event_ts =>
      exact inv_apply_snapshot hd hb hop side price now_us event_ts
    | delta side price amount now_us event_ts =>
      exact inv_apply_delta hd hb side price amount now_us event_ts
    | clear =>
      obtain ⟨hdl, _, _, _, _⟩ := hb
      exact ⟨hdl, by simp [BookOp.apply, OrderBook.clear],
        by simp [BookOp.apply, OrderBook.clear],
        by simp [BookOp.apply, OrderBook.clear],
        by simp [BookOp.apply, OrderBook.clear]⟩

/-- C4 counterexample: `apply_snapshot` writes the amount unconditionally
(`orderbook.py` lines 42–46), so a single snapshot call with `amount = -1`
leaves a stored amount that is not strictly positive, refuting the claim for
arbitrary real-valued amounts. -/
theorem c4_counterexample :
    (runBook (OrderBook.init 5)
        [BookOp.snap "bid" 1 (-1) 0 none]).bids = [(1, -1)] ∧
    ¬ (0 < ((-1 : ℚ))) := by
  constructor
  · rfl
  · norm_num

/-- C4 amended: for `depth_limit ≥ 1`, and provided every `apply_snapshot`
call carries a strictly positive amount (deltas and clears unrestricted),
every reachable state stores only strictly positive amounts and keeps at most
`depth_limit` levels per side. -/
theorem c4_book_invariants (d : ℕ) (ops : List BookOp) (hd : 1 ≤ d)
    (hsnap : ∀ op ∈ ops, op.snapPositive) :
    (∀ pa ∈ (runBook (OrderBook.init d) ops).bids, 0 < pa.2) ∧
    (∀ pa ∈ (runBook (OrderBook.init d) ops).asks, 0 < pa.2) ∧
    (runBook (OrderBook.init d) ops).bids.length ≤ d ∧
    (runBook (OrderBook.init d) ops).asks.length ≤ d := by
  have h0 : BookInv d (OrderBook.init d) := by
    refine ⟨rfl, by simp [OrderBook.init], by simp [OrderBook.init], ?_, ?_⟩
    · simp [OrderBook.init]
    · simp [OrderBook.init]
  obtain ⟨_, h1, h2, h3, h4⟩ :=
    inv_runBook (by omega : d ≠ 0) ops (OrderBook.init d) h0 hsnap
  exact ⟨h1, h2, h3, h4⟩

/-- C4 witness: the amended invariant instantiated on a concrete run mixing
snapshots, deltas and a clear at depth 2. -/
theorem c4_book_invariants_witness :
    (∀ pa ∈ (runBook (OrderBook.init 2)
        [BookOp.snap "bid" 100 1 0 none,
         BookOp.snap "bid" 99 2 1 none,
         BookOp.snap "bid" 98 3 2 none,
         BookOp.delta "ask" 101 5 3 none,
         BookOp.delta "ask" 101 0 4 none,
         BookOp.clear]).bids, 0 < pa.2) ∧
    (runBook (OrderBook.init 2)
        [BookOp.snap "bid" 100 1 0 none,
         BookOp.snap "bid" 99 2 1 none,
         BookOp.snap "bid" 98 3 2 none,
         BookOp.delta "ask" 101 5 3 none,
         BookOp.delta "ask" 101 0 4 none,
         BookOp.clear]).bids.length ≤ 2 := by
  have h := c4_book_invariants 2
    [BookOp.snap "bid" 100 1 0 none,
     BookOp.snap "bid" 99 2 1 none,
     BookOp.snap "bid" 98 3 2 none,
     BookOp.delta "ask" 101 5 3 none,
     BookOp.delta "ask" 101 0 4 none,
     BookOp.clear]
    (by norm_num)
    (by
      intro op hop
      fin_cases hop <;> norm_num [BookOp.snapPositive])
  exact ⟨h.1, h.2.2.1⟩

/-- `OrderBookReplayer` (`src/orderbook/replayer.py`). -/
structure Replayer where
  orderbook : OrderBook
  snapshot_active : Bool
deriving DecidableEq, Repr

/-- `OrderBookReplayer.__init__`. -/
def Replayer.init (depth_limit : ℕ) : Replayer :=
  { orderbook := OrderBook.init depth_limit, snapshot_active := false }

/-- `OrderBookReplayer.on_event` (lines 11–34). The four `data[...]`
subscripts raise `KeyError` on an absent key; invalid side or non-numeric
price/amount are silently dropped; a snapshot row first clears the book when
the snapshot phase was not active; a delta row clears the flag. -/
def Replayer.on_event (r : Replayer) (ev : Event) (now_us : ℤ) :
    Except PyErr Replayer :=
  if ev.stream ≠ .orderbook then .ok r
  else
    match getItem ev.data "is_snapshot" with
    | .error e => .error e
    | .ok is_snapshot =>
      match getItem ev.data "side" with
      | .error e => .error e
      | .ok side =>
        match getItem ev.data "price" with
        | .error e => .error e
        | .ok price =>
          match getItem ev.data "amount" with
          | .error e => .error e
          | .ok amount =>
            match side with
            | .vstr s =>
              if s = "bid" ∨ s = "ask" then
                match price, amount with
                | .vnum p, .vnum a =>
                  if is_snapshot.truthy then
                    let bk := if ¬ r.snapshot_active then r.orderbook.clear
                              else r.orderbook
                    .ok { orderbook := bk.apply_snapshot s p a now_us ev.event_ts,
                          snapshot_active := true }
                  else
                    .ok { orderbook :=
                            r.orderbook.apply_delta s p a now_us ev.event_ts,
                          snapshot_active := false }
                | _, _ => .ok r
              else .ok r
            | _ => .ok r

/-- `OrderBookReplayer.snapshot`. -/
def Replayer.snapshot (r : Replayer) : BookTop :=
  r.orderbook.top

/-- Sanitizer construction parameters (`Sanitizer.__init__`: the configured
exchange and symbol defaults). -/
structure SanitizerConfig where
  exchange : String
  symbol : String
deriving DecidableEq, Repr

/-- The ticker carry-forward cache (`Sanitizer.__init__`, lines 17–23); each
field holds the last seen non-`None` raw value. -/
structure SanitizerState where
  last_funding_timestamp : Option Val
  last_funding_rate : Option Val
  last_predicted_funding_rate : Option Val
  last_open_interest : Option Val
  last_last_price : Option Val
  last_index_price : Option Val
  last_mark_price : Option Val
deriving DecidableEq, Repr

/-- Fresh sanitizer cache. -/
def SanitizerState.init : SanitizerState :=
  ⟨none, none, none, none, none, none, none⟩

/-- The six required ticker fields (`required`, lines 67–74;
`predicted_funding_rate` is tracked but not required). -/
def tickerRequired : List String :=
  ["funding_timestamp", "funding_rate", "open_interest",
   "last_price", "index_price", "mark_price"]

/-- One step of the `fill` closure (lines 94–98): when the merged payload
lacks the key (absent or null) and the cache has a value, write the cached
value and flag `used_cache`. -/
def fillField (acc : List (String × Val) × Bool) (k : String)
    (cached : Option Val) : List (String × Val) × Bool :=
  if pyGet acc.1 k = none then
    match cached with
    | some v => (assocInsert acc.1 k v, true)
    | none => acc
  else acc

/-- `if merged.get(k) is not None: cache = merged[k]` — keep the old cached
value only when the payload field is absent or null. -/
def cacheKeep (old : Option Val) (v : Option Val) : Option Val :=
  match v with
  | some x => some x
  | none => old

/-- Cache update from a ticker payload (lines 77–90): each non-null field
overwrites the cached value. -/
def SanitizerState.update (st : SanitizerState)
    (merged : List (String × Val)) : SanitizerState :=
  { last_funding_timestamp :=
      cacheKeep st.last_funding_timestamp (pyGet merged "funding_timestamp"),
    last_funding_rate :=
      cacheKeep st.last_funding_rate (pyGet merged "funding_rate"),
    last_predicted_funding_rate :=
      cacheKeep st.last_predicted_funding_rate
        (pyGet merged "predicted_funding_rate"),
    last_open_interest :=
      cacheKeep st.last_open_interest (pyGet merged "open_interest"),
    last_last_price :=
      cacheKeep st.last_last_price (pyGet merged "last_price"),
    last_index_price :=
      cacheKeep st.last_index_price (pyGet merged "index_price"),
    last_mark_price :=
      cacheKeep st.last_mark_price (pyGet merged "mark_price") }

/-- Final assembly of `sanitize` (lines 125–138): join reasons with `|`; a
REPAIR result rebuilds the event with the (possibly defaulted) symbol and
payload (the exchange-repair path can never reach here, see `sanitize`);
ACCEPT and QUARANTINE pass the original event through. -/
def finishSan (st : SanitizerState) (ev : Event) (symb : Option String)
    (status : SanitizationState) (reasons : List String)
    (data : List (String × Val)) :
    Except PyErr (SanitizerState × SanitizationState × Event × String) :=
  let reason := String.intercalate "|" reasons
  if status = .REPAIR then
    .ok (st, .REPAIR, { ev with symbol := symb, data := data }, reason)
  else .ok (st, status, ev, reason)

/-- TICKER branch of `sanitize` (lines 64–120): update the cache from the
payload, fill missing required fields from the cache in declared key order,
quarantine when a required field is still missing (cache already mutated),
keep the incoming status when the payload was self-complete and no cache
value was used, otherwise REPAIR with the merged payload. -/
def sanitizeTicker (st : SanitizerState) (ev : Event) (symb : Option String)
    (status : SanitizationState) (reasons : List String) :
    Except PyErr (SanitizerState × SanitizationState × Event × String) :=
  let merged := ev.data
  let complete := tickerRequired.all (fun k => (pyGet merged k).isSome)
  let st1 := st.update merged
  let a1 := fillField (merged, false) "funding_timestamp" st1.last_funding_timestamp
  let a2 := fillField a1 "funding_rate" st1.last_funding_rate
  let a3 := fillField a2 "predicted_funding_rate" st1.last_predicted_funding_rate
  let a4 := fillField a3 "open_interest" st1.last_open_interest
  let a5 := fillField a4 "last_price" st1.last_last_price
  let a6 := fillField a5 "index_price" st1.last_index_price
  let a7 := fillField a6 "mark_price" st1.last_mark_price
  let missing := tickerRequired.filter (fun k => pyGet a7.1 k = none)
  if missing ≠ [] then
    .ok (st1, .QUARANTINE, ev,
      "ticker_missing_fields:" ++ String.intercalate "," missing)
  else if complete && !a7.2 then
    finishSan st1 ev symb status reasons ev.data
  else
    finishSan st1 ev symb .REPAIR (reasons ++ ["repair_ticker_merge_cache"]) a7.1

/-- Per-stream validity rules of `sanitize` (lines 47–123), after the
exchange/symbol gate has fixed `symb`, `status` and `reasons`. -/
def sanitizeStream (st : SanitizerState) (ev : Event) (symb : Option String)
    (status : SanitizationState) (reasons : List String) :
    Except PyErr (SanitizerState × SanitizationState × Event × String) :=
  match ev.stream with
  | .trades =>
    if pyGet ev.data "price" = none ∨ pyGet ev.data "amount" = none ∨
        pyGet ev.data "side" = none then
      .ok (st, .QUARANTINE, ev, "trade_missing_fields")
    else finishSan st ev symb status reasons ev.data
  | .liquidations =>
    if pyGet ev.data "price" = none ∨ pyGet ev.data "amount" = none ∨
        pyGet ev.data "side" = none then
      .ok (st, .QUARANTINE, ev, "liq_missing_fields")
    else finishSan st ev symb status reasons ev.data
  | .orderbook =>
    if hasKey ev.data "is_snapshot" = true ∧
        pyGet ev.data "is_snapshot" = none then
      .ok (st, .QUARANTINE, ev, "orderbook_invalid_is_snapshot")
    else if pyGet ev.data "side" = none ∨ pyGet ev.data "price" = none ∨
        pyGet ev.data "amount" = none then
      .ok (st, .QUARANTINE, ev, "orderbook_missing_fields")
    else finishSan st ev symb status reasons ev.data
  | .ticker => sanitizeTicker st ev symb status reasons

/-- `Sanitizer.sanitize` (`src/core/sanitization.py`, lines 25–138).
The null-exchange branch executes `reason.append("repair_exchange_default")`
(line 35) where only `reasons` is bound — `reason` is assigned much later
(line 125) — so Python raises `UnboundLocalError`; modelled as the error
case. A mismatching exchange/symbol quarantines with `missing_exchange` /
`missing_symbol`; a null symbol with a configured non-empty default repairs
with `repair_symbol_default`. -/
def sanitize (cfg : SanitizerConfig) (st : SanitizerState) (ev : Event) :
    Except PyErr (SanitizerState × SanitizationState × Event × String) :=
  match ev.exchange with
  | none => .error (.unboundLocal "reason")
  | some exchg =>
    if exchg ≠ cfg.exchange then .ok (st, .QUARANTINE, ev, "missing_exchange")
    else
      match ev.symbol with
      | some s =>
        if s ≠ cfg.symbol then .ok (st, .QUARANTINE, ev, "missing_symbol")
        else sanitizeStream st ev (some s) .ACCEPT []
      | none =>
        if cfg.symbol ≠ "" then
          sanitizeStream st ev (some cfg.symbol) .REPAIR
            ["repair_symbol_default"]
        else
          sanitizeStream st ev none .ACCEPT []

/-- The configured exchange/symbol used in the concrete scenarios. -/
def sanCfg : SanitizerConfig :=
  { exchange := "binance-futures", symbol := "btcusdt" }

/-- A trades event whose `exchange` is null (C2's input class). -/
def c2_ev : Event :=
  { stream := .trades, exchange := none, symbol := some "btcusdt",
    event_ts := some 0, ingest_ts := some 0, event_id := none,
    data := [("price", .vnum 100), ("amount", .vnum 1),
             ("side", .vstr "buy")] }

/-- C2: the claim says a null-exchange event is repaired (REPAIR,
`repair_exchange_default`) and that sanitize never raises. The code's
null-exchange branch references the unbound local `reason`
(`sanitization.py` line 35, `reason.append` instead of `reasons.append`),
so `sanitize` raises `UnboundLocalError` for every such event instead of
returning. -/
theorem c2_null_exchange_raises :
    sanitize sanCfg SanitizerState.init c2_ev =
      .error (.unboundLocal "reason") := by
  rfl

/-- An ORDERBOOK event with non-null side/price/amount whose data dict has
no `is_snapshot` key at all (C10's input class). -/
def c10_ev : Event :=
  { stream := .orderbook, exchange := some "binance-futures",
    symbol := some "btcusdt", event_ts := some 1000, ingest_ts := some 1000,
    event_id := none,
    data := [("side", .vstr "bid"), ("price", .vnum 100),
             ("amount", .vnum 1)] }

/-- C10: an ORDERBOOK event with non-null side, price and amount but no
`is_snapshot` key passes sanitization (ACCEPT, not QUARANTINE — the
`orderbook_invalid_is_snapshot` check only fires when the key is present and
null), yet `OrderBookReplayer.on_event` reaches the `data["is_snapshot"]`
subscript and raises `KeyError`. -/
theorem c10_missing_is_snapshot_key :
    sanitize sanCfg SanitizerState.init c10_ev =
      .ok (SanitizerState.init, .ACCEPT, c10_ev, "") ∧
    Replayer.on_event (Replayer.init 5) c10_ev 0 =
      .error (.keyError "is_snapshot") := by
  constructor
  · rfl
  · rfl

/-- `TimeAligner` configuration (`__init__`: `*_ms * 1000`). -/
structure AlignerConfig where
  allowed_lateness_us : ℤ
  max_buffer_us : ℤ
deriving DecidableEq, Repr

/-- `TimeAlignmentStats` (`src/core/time_alignment.py`, lines 8–14). -/
structure AlignStats where
  pushed : ℕ
  emitted : ℕ
  late : ℕ
  forced_flush : Bool
  buffer_len : ℕ
deriving DecidableEq, Repr

/-- A heap entry `(event_ts, tie, event)`. -/
abbrev HeapEntry := ℤ × ℕ × Event

/-- `TimeAligner` state: highest `event_ts` seen, the heap (modelled as a
list sorted by `(event_ts, tie)`), and the monotone tie counter. -/
structure AlignerState where
  last_event_ts : Option ℤ
  heap : List HeapEntry
  tie : ℕ
deriving DecidableEq, Repr

/-- Fresh aligner. -/
def AlignerState.init : AlignerState :=
  { last_event_ts := none, heap := [], tie := 0 }

/-- Heap key order: lexicographic on `(event_ts, tie)`. -/
def heapLt (x y : HeapEntry) : Prop :=
  x.1 < y.1 ∨ (x.1 = y.1 ∧ x.2.1 < y.2.1)

instance : DecidableRel heapLt := fun x y => by
  unfold heapLt
  exact inferInstance

/-- `heapq.heappush`: ordered insertion into the sorted-list model. -/
def heapInsert (x : HeapEntry) : List HeapEntry → List HeapEntry
  | [] => [x]
  | y :: ys => if heapLt x y then x :: y :: ys else y :: heapInsert x ys

/-- Pop every entry with `event_ts ≤ w` off the front of the sorted heap
(the `while self._heap and self._heap[0][0] <= watermark` loop). -/
def popLE (w : ℤ) : List HeapEntry → List HeapEntry × List HeapEntry
  | [] => ([], [])
  | x :: xs =>
    if x.1 ≤ w then
      let r := popLE w xs
      (x :: r.1, r.2)
    else ([], x :: xs)

/-- `last_event_ts` after seeing `ts` (lines 35–36). -/
def alignLast (st : AlignerState) (ts : ℤ) : ℤ :=
  match st.last_event_ts with
  | none => ts
  | some l => if ts > l then ts else l

/-- `_compute_watermark` after the update (lines 38 and 46 compute the same
value because `last_event_ts` was already raised). -/
def alignWm (cfg : AlignerConfig) (st : AlignerState) (ts : ℤ) : ℤ :=
  alignLast st ts - cfg.allowed_lateness_us

/-- The heap after `heappush` (line 42). -/
def alignHeap1 (st : AlignerState) (ev : Event) (ts : ℤ) : List HeapEntry :=
  heapInsert (ts, st.tie, ev) st.heap

/-- The effective watermark (lines 51–55): lowered to
`oldest + max_buffer_us` when the oldest buffered event lags behind the
watermark by more than `max_buffer_us`. -/
def alignWeff (cfg : AlignerConfig) (st : AlignerState) (ev : Event)
    (ts : ℤ) : ℤ :=
  match alignHeap1 st ev ts with
  | [] => alignWm cfg st ts
  | x :: _ =>
    if alignWm cfg st ts - x.1 > cfg.max_buffer_us then
      x.1 + cfg.max_buffer_us
    else alignWm cfg st ts

/-- The `forced_flush` flag of the same branch. -/
def alignForced (cfg : AlignerConfig) (st : AlignerState) (ev : Event)
    (ts : ℤ) : Bool :=
  match alignHeap1 st ev ts with
  | [] => false
  | x :: _ => decide (alignWm cfg st ts - x.1 > cfg.max_buffer_us)

/-- `TimeAligner.align` (lines 26–63): null `event_ts` passes through;
otherwise raise `last_event_ts`, flag lateness against the watermark
(computed after the raise, so only an event below the standing watermark is
late), push, possibly lower the effective watermark (forced flush), and pop
every entry with `event_ts ≤` the effective watermark. -/
def align (cfg : AlignerConfig) (st : AlignerState) (ev : Event) :
    AlignerState × List Event × AlignStats :=
  match ev.event_ts with
  | none =>
    (st, [ev], { pushed := 1, emitted := 1, late := 0, forced_flush := false,
                 buffer_len := st.heap.length })
  | some ts =>
    ({ last_event_ts := some (alignLast st ts),
       heap := (popLE (alignWeff cfg st ev ts) (alignHeap1 st ev ts)).2,
       tie := st.tie + 1 },
     (popLE (alignWeff cfg st ev ts) (alignHeap1 st ev ts)).1.map
       (fun e => e.2.2),
     { pushed := 1,
       emitted := (popLE (alignWeff cfg st ev ts) (alignHeap1 st ev ts)).1.length,
       late := if ts < alignWm cfg st ts then 1 else 0,
       forced_flush := alignForced cfg st ev ts,
       buffer_len := (popLE (alignWeff cfg st ev ts) (alignHeap1 st ev ts)).2.length })

/-- Run a sequence of `align` calls, collecting each call's emitted list and
stats in order. -/
def runAlign (cfg : AlignerConfig) :
    AlignerState → List Event → AlignerState × List (List Event × AlignStats)
  | st, [] => (st, [])
  | st, ev :: evs =>
    ((runAlign cfg (align cfg st ev).1 evs).1,
     (align cfg st ev).2 :: (runAlign cfg (align cfg st ev).1 evs).2)

/-- The concatenated emitted sequence of a run. -/
def emittedConcat (cfg : AlignerConfig) (st : AlignerState)
    (evs : List Event) : List Event :=
  ((runAlign cfg st evs).2.map Prod.fst).flatten

/-- A standard trades event with the given timestamp and an id string. -/
def tsEvent (ts : ℤ) (id : String) : Event :=
  { stream := .trades, exchange := some "binance-futures",
    symbol := some "btcusdt", event_ts := some ts, ingest_ts := some ts,
    event_id := some id,
    data := [("price", .vnum 100), ("amount", .vnum 1),
             ("side", .vstr "buy")] }

/-- The S1 configuration: `allowed_lateness_ms = 100`, `max_buffer_ms = 1000`
(the constructor converts to microseconds). -/
def s1Cfg : AlignerConfig :=
  { allowed_lateness_us := 100 * 1000, max_buffer_us := 1000 * 1000 }

/-- C6 counterexample: with the S1 inputs (1 000 000, 900 000, 1 200 000)
the claim says the first two align calls emit nothing; in fact the second
call already emits 900 000, because after the first event the watermark
stands at 900 000 and the pop condition is `event_ts <= watermark`
(`time_alignment.py` line 57). -/
theorem c6_counterexample :
    ((runAlign s1Cfg AlignerState.init
        [tsEvent 1000000 "a", tsEvent 900000 "b", tsEvent 1200000 "c"]).2.map
      Prod.fst) =
      [[], [tsEvent 900000 "b"], [tsEvent 1000000 "a"]] ∧
    ([tsEvent 900000 "b"] : List Event) ≠ [] := by
  constructor
  · rfl
  · intro h
    simp at h

/-- C6 amended: pushing 1 000 000, 900 000, 1 200 000 into a fresh aligner
with `allowed_lateness_ms=100`, `max_buffer_ms=1000` makes the first call
emit nothing, the second call emit 900 000 (it arrives exactly at the
standing watermark 900 000 and `<=` pops it), and the third call emit
1 000 000 (watermark 1 100 000) while 1 200 000 remains buffered. -/
theorem c6_watermark_emission :
    ((runAlign s1Cfg AlignerState.init
        [tsEvent 1000000 "a", tsEvent 900000 "b", tsEvent 1200000 "c"]).2.map
      Prod.fst) =
      [[], [tsEvent 900000 "b"], [tsEvent 1000000 "a"]] ∧
    (runAlign s1Cfg AlignerState.init
        [tsEvent 1000000 "a", tsEvent 900000 "b", tsEvent 1200000 "c"]).1.heap =
      [(1200000, 2, tsEvent 1200000 "c")] ∧
    (runAlign s1Cfg AlignerState.init
        [tsEvent 1000000 "a", tsEvent 900000 "b", tsEvent 1200000 "c"]).1.last_event_ts =
      some 1200000 := by
  exact ⟨rfl, rfl, rfl⟩

/-- C3 counterexample: a late event is buffered and then popped in the same
call (its timestamp is below the watermark), so it is emitted *after* an
earlier-emitted event with a higher `event_ts`. Pushing 1 000 000, then
2 000 000 (which emits 1 000 000), then the late 999 999 (which emits
999 999) produces the non-monotone emitted timestamp sequence
`[1000000, 999999]`. -/
theorem c3_counterexample :
    (emittedConcat s1Cfg AlignerState.init
        [tsEvent 1000000 "a", tsEvent 2000000 "b",
         tsEvent 999999 "c"]).filterMap Event.event_ts =
      [1000000, 999999] ∧
    ¬ List.Sorted (· ≤ ·) ([1000000, 999999] : List ℤ) := by
  constructor
  · rfl
  · decide

/-- Order on heap entries by timestamp only. -/
def tsLE (x y : HeapEntry) : Prop := x.1 ≤ y.1

lemma mem_heapInsert {x y : HeapEntry} :
    ∀ {h : List HeapEntry}, y ∈ heapInsert x h → y = x ∨ y ∈ h := by
  intro h
  induction h with
  | nil => intro hy; rw [heapInsert] at hy; simpa using hy
  | cons z zs ih =>
    intro hy
    rw [heapInsert] at hy
    split at hy
    · rcases List.mem_cons.mp hy with h1 | h1
      · exact Or.inl h1
      · exact Or.inr h1
    · rcases List.mem_cons.mp hy with h1 | h1
      · exact Or.inr (h1 ▸ List.mem_cons_self z zs)
      · rcases ih h1 with h2 | h2
        · exact Or.inl h2
        · exact Or.inr (List.mem_cons_of_mem z h2)

lemma sorted_heapInsert {x : HeapEntry} :
    ∀ {h : List HeapEntry}, List.Sorted tsLE h →
      List.Sorted tsLE (heapInsert x h) := by
  intro h
  induction h with
  | nil => intro _; simp [heapInsert, List.Sorted]
  | cons z zs ih =>
    intro hs
    rw [List.sorted_cons] at hs
    obtain ⟨hz, hzs⟩ := hs
    rw [heapInsert]
    split
    · next hlt =>
      rw [List.sorted_cons]
      refine ⟨?_, List.sorted_cons.mpr ⟨hz, hzs⟩⟩
      intro b hb
      have hxz : x.1 ≤ z.1 := by
        rcases hlt with h1 | h1
        · exact le_of_lt h1
        · exact le_of_eq h1.1
      rcases List.mem_cons.mp hb with h1 | h1
      · rw [h1]; exact hxz
      · exact le_trans hxz (hz b h1)
    · next hnlt =>
      rw [List.sorted_cons]
      refine ⟨?_, ih hzs⟩
      intro b hb
      show z.1 ≤ b.1
      have hzx : z.1 ≤ x.1 := by
        unfold heapLt at hnlt
        push_neg at hnlt
        exact hnlt.1
      rcases mem_heapInsert hb with h1 | h1
      · rw [h1]; exact hzx
      · exact hz b h1

lemma popLE_append (w : ℤ) :
    ∀ (h : List HeapEntry), (popLE w h).1 ++ (popLE w h).2 = h := by
  intro h
  induction h with
  | nil => rfl
  | cons x xs ih =>
    rw [popLE]
    split
    · simpa using ih
    · rfl

lemma mem_popLE_fst {w : ℤ} {y : HeapEntry} :
    ∀ {h : List HeapEntry}, y ∈ (popLE w h).1 → y ∈ h ∧ y.1 ≤ w := by
  intro h
  induction h with
  | nil => intro hy; simp [popLE] at hy
  | cons x xs ih =>
    intro hy
    rw [popLE] at hy
    split at hy
    · next hle =>
      rcases List.mem_cons.mp hy with h1 | h1
      · exact ⟨h1 ▸ List.mem_cons_self x xs, h1 ▸ hle⟩
      · obtain ⟨hm, hw⟩ := ih h1
        exact ⟨List.mem_cons_of_mem x hm, hw⟩
    · simp at hy

lemma mem_popLE_snd {w : ℤ} {y : HeapEntry} {h : List HeapEntry}
    (hy : y ∈ (popLE w h).2) : y ∈ h := by
  have := popLE_append w h
  rw [← this]
  exact List.mem_append_right _ hy

lemma mem_popLE_snd_gt {w : ℤ} {y : HeapEntry} :
    ∀ {h : List HeapEntry}, List.Sorted tsLE h → y ∈ (popLE w h).2 →
      w < y.1 := by
  intro h
  induction h with
  | nil => intro _ hy; simp [popLE] at hy
  | cons x xs ih =>
    intro hs hy
    rw [List.sorted_cons] at hs
    rw [popLE] at hy
    split at hy
    · exact ih hs.2 hy
    · next hgt =>
      push_neg at hgt
      rcases List.mem_cons.mp hy with h1 | h1
      · rw [h1]; exact hgt
      · exact lt_of_lt_of_le hgt (hs.1 y h1)

lemma sorted_popLE_fst {w : ℤ} {h : List HeapEntry}
    (hs : List.Sorted tsLE h) : List.Sorted tsLE (popLE w h).1 := by
  have hsub : (popLE w h).1.Sublist h := by
    nth_rewrite 2 [← popLE_append w h]
    exact List.sublist_append_left _ _
  exact List.Pairwise.sublist hsub hs

lemma sorted_popLE_snd {w : ℤ} {h : List HeapEntry}
    (hs : List.Sorted tsLE h) : List.Sorted tsLE (popLE w h).2 := by
  have hsub : (popLE w h).2.Sublist h := by
    nth_rewrite 2 [← popLE_append w h]
    exact List.sublist_append_right _ _
  exact List.Pairwise.sublist hsub hs

lemma alignWeff_le (cfg : AlignerConfig) (st : AlignerState) (ev : Event)
    (ts : ℤ) : alignWeff cfg st ev ts ≤ alignWm cfg st ts := by
  unfold alignWeff
  split
  · exact le_refl _
  · split
    · next hgt => omega
    · exact le_refl _

lemma alignLast_ge_ts (st : AlignerState) (ts : ℤ) : ts ≤ alignLast st ts := by
  unfold alignLast
  split
  · exact le_refl _
  · split <;> omega

lemma alignLast_ge_old {st : AlignerState} {l : ℤ}
    (hl : st.last_event_ts = some l) (ts : ℤ) : l ≤ alignLast st ts := by
  unfold alignLast
  rw [hl]
  dsimp only
  split <;> omega

lemma filterMap_entry_ts {l : List HeapEntry}
    (hl : ∀ e ∈ l, e.2.2.event_ts = some e.1) :
    (l.map (fun e => e.2.2)).filterMap Event.event_ts =
      l.map (fun e => e.1) := by
  induction l with
  | nil => rfl
  | cons x xs ih =>
    have hx := hl x (List.mem_cons_self x xs)
    simp only [List.map_cons, List.filterMap_cons, hx]
    rw [ih (fun e he => hl e (List.mem_cons_of_mem x he))]

/-- The invariant tying the aligner state to the timestamps emitted so far
(restricted to events with non-null `event_ts`). -/
structure AlignInv (cfg : AlignerConfig) (st : AlignerState)
    (out : List ℤ) : Prop where
  sortedHeap : List.Sorted tsLE st.heap
  heapTs : ∀ e ∈ st.heap, e.2.2.event_ts = some e.1
  sortedOut : List.Sorted (· ≤ ·) out
  outLe : ∀ t ∈ out, ∃ l, st.last_event_ts = some l ∧
    t ≤ l - cfg.allowed_lateness_us
  heapGeOut : ∀ e ∈ st.heap, ∀ t ∈ out, t ≤ e.1

lemma alignInv_init (cfg : AlignerConfig) :
    AlignInv cfg AlignerState.init [] := by
  refine ⟨?_, ?_, ?_, ?_, ?_⟩
  · simp [AlignerState.init, List.Sorted]
  · simp [AlignerState.init]
  · simp [List.Sorted]
  · simp
  · simp

lemma align_step_inv {cfg : AlignerConfig} {st : AlignerState} {out : List ℤ}
    (hinv : AlignInv cfg st out) {ev : Event} {ts : ℤ}
    (hts : ev.event_ts = some ts) (hlate : ¬ ts < alignWm cfg st ts) :
    AlignInv cfg
      { last_event_ts := some (alignLast st ts),
        heap := (popLE (alignWeff cfg st ev ts) (alignHeap1 st ev ts)).2,
        tie := st.tie + 1 }
      (out ++ ((popLE (alignWeff cfg st ev ts) (alignHeap1 st ev ts)).1.map
        (fun e => e.2.2)).filterMap Event.event_ts) := by
  have hsorted1 : List.Sorted tsLE (alignHeap1 st ev ts) :=
    sorted_heapInsert hinv.sortedHeap
  have hts1 : ∀ e ∈ alignHeap1 st ev ts, e.2.2.event_ts = some e.1 := by
    intro e he
    rcases mem_heapInsert he with h1 | h1
    · rw [h1]; exact hts
    · exact hinv.heapTs e h1
  have hmapTs : ((popLE (alignWeff cfg st ev ts) (alignHeap1 st ev ts)).1.map
      (fun e => e.2.2)).filterMap Event.event_ts =
      (popLE (alignWeff cfg st ev ts) (alignHeap1 st ev ts)).1.map
        (fun e => e.1) :=
    filterMap_entry_ts (fun e he => hts1 e (mem_popLE_fst he).1)
  have hweff := alignWeff_le cfg st ev ts
  have hwmK : alignWm cfg st ts = alignLast st ts - cfg.allowed_lateness_us :=
    rfl
  have hwm : alignWm cfg st ts ≤ ts := not_lt.mp hlate
  have houtTs : ∀ a ∈ out, a ≤ ts := by
    intro a ha
    obtain ⟨l, hl, hle⟩ := hinv.outLe a ha
    have hll := alignLast_ge_old hl ts
    omega
  have houtHeap1 : ∀ e ∈ alignHeap1 st ev ts, ∀ a ∈ out, a ≤ e.1 := by
    intro e he a ha
    rcases mem_heapInsert he with h1 | h1
    · rw [h1]; exact houtTs a ha
    · exact hinv.heapGeOut e h1 a ha
  refine ⟨?_, ?_, ?_, ?_, ?_⟩
  · exact sorted_popLE_snd hsorted1
  · intro e he
    exact hts1 e (mem_popLE_snd he)
  · rw [hmapTs]
    rw [List.Sorted, List.pairwise_append]
    refine ⟨hinv.sortedOut, ?_, ?_⟩
    · exact List.pairwise_map.mpr (sorted_popLE_fst hsorted1)
    · intro a ha b hb
      rcases List.mem_map.mp hb with ⟨e, he, rfl⟩
      exact houtHeap1 e (mem_popLE_fst he).1 a ha
  · intro t ht
    rcases List.mem_append.mp ht with h1 | h1
    · obtain ⟨l, hl, hle⟩ := hinv.outLe t h1
      refine ⟨alignLast st ts, rfl, ?_⟩
      have := alignLast_ge_old hl ts
      omega
    · rw [hmapTs] at h1
      rcases List.mem_map.mp h1 with ⟨e, he, rfl⟩
      refine ⟨alignLast st ts, rfl, ?_⟩
      have h2 := (mem_popLE_fst he).2
      omega
  · intro e he t ht
    rcases List.mem_append.mp ht with h1 | h1
    · exact houtHeap1 e (mem_popLE_snd he) t h1
    · rw [hmapTs] at h1
      rcases List.mem_map.mp h1 with ⟨f, hf, rfl⟩
      have h2 := (mem_popLE_fst hf).2
      have h3 := mem_popLE_snd_gt hsorted1 he
      omega

lemma emittedConcat_cons (cfg : AlignerConfig) (st : AlignerState)
    (ev : Event) (evs : List Event) :
    emittedConcat cfg st (ev :: evs) =
      (align cfg st ev).2.1 ++ emittedConcat cfg (align cfg st ev).1 evs := by
  simp [emittedConcat, runAlign]

lemma align_run_inv (cfg : AlignerConfig) :
    ∀ (evs : List Event) (st : AlignerState) (out : List ℤ),
      AlignInv cfg st out →
      (∀ r ∈ (runAlign cfg st evs).2, r.2.late = 0) →
      AlignInv cfg (runAlign cfg st evs).1
        (out ++ (emittedConcat cfg st evs).filterMap Event.event_ts) := by
  intro evs
  induction evs with
  | nil =>
    intro st out hinv _
    simpa [runAlign, emittedConcat] using hinv
  | cons ev evs ih =>
    intro st out hinv hnl
    have hhead : (align cfg st ev).2.2.late = 0 := by
      have : (align cfg st ev).2 ∈ (runAlign cfg st (ev :: evs)).2 := by
        rw [runAlign]
        exact List.mem_cons_self _ _
      exact hnl _ this
    have htail : ∀ r ∈ (runAlign cfg (align cfg st ev).1 evs).2,
        r.2.late = 0 := by
      intro r hrr
      apply hnl
      rw [runAlign]
      exact List.mem_cons_of_mem _ hrr
    have hstep : AlignInv cfg (align cfg st ev).1
        (out ++ (align cfg st ev).2.1.filterMap Event.event_ts) := by
      cases hts : ev.event_ts with
      | none =>
        have h1 : (align cfg st ev).1 = st := by
          unfold align; rw [hts]
        have h2 : (align cfg st ev).2.1 = [ev] := by
          unfold align; rw [hts]
        rw [h1, h2]
        have h3 : ([ev] : List Event).filterMap Event.event_ts = [] := by
          simp [hts]
        rw [h3, List.append_nil]
        exact hinv
      | some ts =>
        have h1 : (align cfg st ev).1 =
            { last_event_ts := some (alignLast st ts),
              heap := (popLE (alignWeff cfg st ev ts)
                (alignHeap1 st ev ts)).2,
              tie := st.tie + 1 } := by
          unfold align; rw [hts]
        have h2 : (align cfg st ev).2.1 =
            (popLE (alignWeff cfg st ev ts) (alignHeap1 st ev ts)).1.map
              (fun e => e.2.2) := by
          unfold align; rw [hts]
        have hl : ¬ ts < alignWm cfg st ts := by
          have h3 : (align cfg st ev).2.2.late =
              (if ts < alignWm cfg st ts then 1 else 0) := by
            unfold align; rw [hts]
          rw [h3] at hhead
          intro hc
          rw [if_pos hc] at hhead
          exact one_ne_zero hhead
        rw [h1, h2]
        exact align_step_inv hinv hts hl
    have hrec := ih (align cfg st ev).1 _ hstep htail
    have hfst : (runAlign cfg st (ev :: evs)).1 =
        (runAlign cfg (align cfg st ev).1 evs).1 := by
      rw [runAlign]
    rw [hfst, emittedConcat_cons, List.filterMap_append, ← List.append_assoc]
    exact hrec

/-- C3 amended: provided no align call reports a late arrival
(`stats.late = 0` throughout — the counterexample shows a late event breaks
the guarantee), the concatenation of all emitted lists, restricted to events
with non-null `event_ts`, is monotonically non-decreasing in `event_ts`. -/
theorem c3_aligner_monotone (cfg : AlignerConfig) (evs : List Event)
    (hnolate : ∀ r ∈ (runAlign cfg AlignerState.init evs).2, r.2.late = 0) :
    List.Sorted (· ≤ ·)
      ((emittedConcat cfg AlignerState.init evs).filterMap Event.event_ts) := by
  have h := align_run_inv cfg evs AlignerState.init [] (alignInv_init cfg)
    hnolate
  simpa using h.sortedOut

/-- C3 witness: the no-late-event run of scenario S1 instantiates the
amended ordering theorem. -/
theorem c3_aligner_monotone_witness :
    (∀ r ∈ (runAlign s1Cfg AlignerState.init
        [tsEvent 1000000 "a", tsEvent 900000 "b", tsEvent 1200000 "c"]).2,
      r.2.late = 0) ∧
    List.Sorted (· ≤ ·)
      ((emittedConcat s1Cfg AlignerState.init
          [tsEvent 1000000 "a", tsEvent 900000 "b",
           tsEvent 1200000 "c"]).filterMap Event.event_ts) := by
  constructor
  · decide
  · exact c3_aligner_monotone s1Cfg
      [tsEvent 1000000 "a", tsEvent 900000 "b", tsEvent 1200000 "c"]
      (by decide)

/-- Enum value strings of the four state axes (`types.py`). -/
def SanitizationState.value : SanitizationState → String
  | .ACCEPT => "ACCEPT"
  | .REPAIR => "REPAIR"
  | .QUARANTINE => "QUARANTINE"

/-- `DataTrustState` value strings. -/
def DataTrustState.value : DataTrustState → String
  | .TRUSTED => "TRUSTED"
  | .DEGRADED => "DEGRADED"
  | .UNTRUSTED => "UNTRUSTED"

/-- `HypothesisState` value strings. -/
def HypothesisState.value : HypothesisState → String
  | .VALID => "VALID"
  | .WEAKENING => "WEAKENING"
  | .INVALID => "INVALID"

/-- `DecisionState` value strings. -/
def DecisionState.value : DecisionState → String
  | .ALLOWED => "ALLOWED"
  | .RESTRICTED => "RESTRICTED"
  | .HALTED => "HALTED"

/-- Python `d.get(k, default)` on an association-list dict. -/
def assocGetD {κ α : Type} [DecidableEq κ] (m : List (κ × α)) (k : κ)
    (d : α) : α :=
  match m.find? (fun kv => kv.1 = k) with
  | some kv => kv.2
  | none => d

/-- `DwellTracker` (`src/core/stats.py`, lines 7–42). -/
structure DwellTracker where
  current : String
  enter_us : ℤ
  total_us : List (String × ℤ)
  entries : List (String × ℤ)
deriving DecidableEq, Repr

/-- `DwellTracker(label, now_us)` with empty totals. -/
def DwellTracker.start (label : String) (now_us : ℤ) : DwellTracker :=
  { current := label, enter_us := now_us, total_us := [], entries := [] }

/-- `DwellTracker.close` (lines 26–29): flush `max(0, now-enter)` into the
current label's total and bump its entry count. -/
def DwellTracker.close (t : DwellTracker) (now_us : ℤ) : DwellTracker :=
  { t with
    total_us := assocInsert t.total_us t.current
      (assocGetD t.total_us t.current 0 + max 0 (now_us - t.enter_us)),
    entries := assocInsert t.entries t.current
      (assocGetD t.entries t.current 0 + 1) }

/-- `DwellTracker.switch` (lines 15–24): no-op on the same label; otherwise
flush the outgoing label (same statements as `close`) and enter the new. -/
def DwellTracker.switch (t : DwellTracker) (new : String) (now_us : ℤ) :
    DwellTracker :=
  if new = t.current then t
  else { t.close now_us with current := new, enter_us := now_us }

/-- `DwellTracker.snapshot` (lines 31–42): note the emitted dict keys are
`total_ts` and `avg_ts` in the code, and the average uses Python floor
division by `max(1, entries)`. -/
def DwellTracker.snapshot (t : DwellTracker) :
    List (String × List (String × ℤ)) :=
  [("total_ts", t.total_us),
   ("avg_ts", t.total_us.map
     (fun kv => (kv.1, Int.fdiv kv.2 (max 1 (assocGetD t.entries kv.1 0)))))]

/-- `EngineStats` counters and trackers (`stats.py`, lines 45–66). -/
structure EngineStats where
  total_events : ℕ
  quarantine_events : ℕ
  repair_events : ℕ
  trusted_events : ℕ
  degraded_events : ℕ
  untrusted_events : ℕ
  allowed_events : ℕ
  restricted_events : ℕ
  halted_events : ℕ
  valid_hypo_events : ℕ
  weakening_hypo_events : ℕ
  invalid_hypo_events : ℕ
  san_dwell : Option DwellTracker
  trust_dwell : Option DwellTracker
  hypo_dwell : Option DwellTracker
  decision_dwell : Option DwellTracker
deriving DecidableEq, Repr

/-- Dataclass defaults: zero counters, no trackers. -/
def EngineStats.initStats : EngineStats :=
  { total_events := 0, quarantine_events := 0, repair_events := 0,
    trusted_events := 0, degraded_events := 0, untrusted_events := 0,
    allowed_events := 0, restricted_events := 0, halted_events := 0,
    valid_hypo_events := 0, weakening_hypo_events := 0,
    invalid_hypo_events := 0,
    san_dwell := none, trust_dwell := none, hypo_dwell := none,
    decision_dwell := none }

/-- `EngineStats.on_event` (lines 68–101): bump the total, then exactly one
counter per axis via the four `match` statements. -/
def EngineStats.on_event (s : EngineStats) (san : SanitizationState)
    (trust : DataTrustState) (hypo : HypothesisState)
    (decision : DecisionState) : EngineStats :=
  { s with
    total_events := s.total_events + 1,
    repair_events :=
      if san = .REPAIR then s.repair_events + 1 else s.repair_events,
    quarantine_events :=
      if san = .QUARANTINE then s.quarantine_events + 1
      else s.quarantine_events,
    trusted_events :=
      if trust = .TRUSTED then s.trusted_events + 1 else s.trusted_events,
    degraded_events :=
      if trust = .DEGRADED then s.degraded_events + 1 else s.degraded_events,
    untrusted_events :=
      if trust = .UNTRUSTED then s.untrusted_events + 1
      else s.untrusted_events,
    allowed_events :=
      if decision = .ALLOWED then s.allowed_events + 1 else s.allowed_events,
    restricted_events :=
      if decision = .RESTRICTED then s.restricted_events + 1
      else s.restricted_events,
    halted_events :=
      if decision = .HALTED then s.halted_events + 1 else s.halted_events,
    valid_hypo_events :=
      if hypo = .VALID then s.valid_hypo_events + 1 else s.valid_hypo_events,
    weakening_hypo_events :=
      if hypo = .WEAKENING then s.weakening_hypo_events + 1
      else s.weakening_hypo_events,
    invalid_hypo_events :=
      if hypo = .INVALID then s.invalid_hypo_events + 1
      else s.invalid_hypo_events }

/-- `EngineStats.init_dwell` (lines 103–107). -/
def EngineStats.init_dwell (s : EngineStats) (now_us : ℤ)
    (san : SanitizationState) (trust : DataTrustState)
    (hypo : HypothesisState) (decision : DecisionState) : EngineStats :=
  { s with
    san_dwell := some (DwellTracker.start san.value now_us),
    trust_dwell := some (DwellTracker.start trust.value now_us),
    hypo_dwell := some (DwellTracker.start hypo.value now_us),
    decision_dwell := some (DwellTracker.start decision.value now_us) }

/-- The summary dict produced by `finalize` (§6 `summary.json` layout;
`events_by_state` maps and the four dwell snapshots). -/
structure Summary where
  total_events : ℕ
  quarantine_events : ℕ
  repair_events : ℕ
  data_trust_counts : List (String × ℕ)
  hypothesis_counts : List (String × ℕ)
  decision_counts : List (String × ℕ)
  dwell_sanitization : List (String × List (String × ℤ))
  dwell_data_trust : List (String × List (String × ℤ))
  dwell_hypothesis : List (String × List (String × ℤ))
  dwell_decision : List (String × List (String × ℤ))
deriving DecidableEq, Repr

/-- `EngineStats.finalize` (lines 125–167): closes the trust, hypothesis and
decision trackers — the code never closes `san_dwell` — then snapshots all
four (an absent tracker contributes an empty dict). -/
def EngineStats.finalize (s : EngineStats) (now_us : ℤ) : Summary :=
  { total_events := s.total_events,
    quarantine_events := s.quarantine_events,
    repair_events := s.repair_events,
    data_trust_counts :=
      [("TRUSTED", s.trusted_events), ("DEGRADED", s.degraded_events),
       ("UNTRUSTED", s.untrusted_events)],
    hypothesis_counts :=
      [("VALID", s.valid_hypo_events), ("WEAKENING", s.weakening_hypo_events),
       ("INVALID", s.invalid_hypo_events)],
    decision_counts :=
      [("ALLOWED", s.allowed_events), ("RESTRICTED", s.restricted_events),
       ("HALTED", s.halted_events)],
    dwell_sanitization :=
      match s.san_dwell with
      | some t => t.snapshot
      | none => [],
    dwell_data_trust :=
      match s.trust_dwell with
      | some t => (t.close now_us).snapshot
      | none => [],
    dwell_hypothesis :=
      match s.hypo_dwell with
      | some t => (t.close now_us).snapshot
      | none => [],
    dwell_decision :=
      match s.decision_dwell with
      | some t => (t.close now_us).snapshot
      | none => [] }

/-- Run a sequence of `on_event` calls. -/
def runStats (s : EngineStats) :
    List (SanitizationState × DataTrustState × HypothesisState ×
      DecisionState) → EngineStats
  | [] => s
  | x :: xs => runStats (s.on_event x.1 x.2.1 x.2.2.1 x.2.2.2) xs

lemma runStats_total_eq_decisions :
    ∀ (calls : List (SanitizationState × DataTrustState × HypothesisState ×
        DecisionState)) (s : EngineStats),
      s.total_events = s.allowed_events + s.restricted_events +
        s.halted_events →
      (runStats s calls).total_events =
        (runStats s calls).allowed_events +
        (runStats s calls).restricted_events +
        (runStats s calls).halted_events := by
  intro calls
  induction calls with
  | nil => intro s hs; simpa [runStats] using hs
  | cons x xs ih =>
    intro s hs
    rw [runStats]
    apply ih
    rcases x with ⟨san, trust, hypo, decision⟩
    cases decision <;> simp [EngineStats.on_event] <;> omega

/-- C9: across every sequence of `on_event` calls, `total_events` equals the
sum of the three decision counters reported under
`events_by_state.decision` in the finalized summary (`on_event` bumps the
total and exactly one decision counter per call). -/
theorem c9_total_events_eq_decision_sum
    (calls : List (SanitizationState × DataTrustState × HypothesisState ×
      DecisionState)) (now_us : ℤ) :
    ((runStats EngineStats.initStats calls).finalize now_us).total_events =
      (((runStats EngineStats.initStats calls).finalize
        now_us).decision_counts.map Prod.snd).sum := by
  have h := runStats_total_eq_decisions calls EngineStats.initStats (by rfl)
  simp [EngineStats.finalize]
  omega

/-- C8: the claim says `finalize` closes all four dwell trackers and that
each dwell entry has the shape `{total_us, avg_us}`. The code closes only
the trust, hypothesis and decision trackers (`stats.py` lines 126–131 —
`san_dwell` is never closed, so its open span is lost), and `snapshot`
emits the keys `total_ts`/`avg_ts` (lines 39–42), not `total_us`/`avg_us`:
after 100µs the sanitization dwell map is empty while the data-trust dwell
map carries the flushed 100µs span. -/
theorem c8_finalize_skips_san_dwell :
    ((EngineStats.initStats.init_dwell 0 .QUARANTINE .DEGRADED .WEAKENING
        .RESTRICTED).finalize 100).dwell_sanitization =
      [("total_ts", []), ("avg_ts", [])] ∧
    ((EngineStats.initStats.init_dwell 0 .QUARANTINE .DEGRADED .WEAKENING
        .RESTRICTED).finalize 100).dwell_data_trust =
      [("total_ts", [("DEGRADED", 100)]), ("avg_ts", [("DEGRADED", 100)])] := by
  constructor
  · rfl
  · rfl

/-- `DataTrustPolicy` thresholds (`data_trust.py`, lines 12–23). -/
structure TrustConfig where
  window_events : ℕ
  quarantine_untrusted_rate : ℚ
  late_degraded_rate : ℚ
  late_untrusted_rate : ℚ
  forced_flush_degraded_rate : ℚ
  forced_flush_untrusted_rate : ℚ
  buffer_len_degraded : ℕ
  buffer_len_untrusted : ℕ
  spread_explode_bps : ℚ
  fat_finger_untrusted_bps : ℚ
  fat_finger_degraded_bps : ℚ
  trade_jump_degraded_bps : ℚ
deriving DecidableEq, Repr

/-- `DataTrustPolicy` per-stream state (lines 27–43). The
`_last_event_id`/`_last_event_ts` dicts start empty and are never written
anywhere in the file, so they are modelled as constantly-`none` maps (the
out-of-order/duplicate reasons can never fire, mirroring the dead code). -/
structure TrustState where
  last_event_id : Stream → Option String
  last_event_ts : Stream → Option ℤ
  align_window : Stream → List (ℕ × ℕ × ℕ × ℕ)
  san_q_window : Stream → List ℕ
  emitted_sum : Stream → ℤ
  late_sum : Stream → ℤ
  forced_sum : Stream → ℤ
  last_buffer_len : Stream → ℕ
  san_q_sum : Stream → ℤ
  last_trade_price : Option ℚ
  state_by_stream : Stream → DataTrustState
  reason_by_stream : Stream → String

/-- Fresh policy state (all windows empty, every stream TRUSTED). -/
def TrustState.init : TrustState :=
  { last_event_id := fun _ => none,
    last_event_ts := fun _ => none,
    align_window := fun _ => [],
    san_q_window := fun _ => [],
    emitted_sum := fun _ => 0,
    late_sum := fun _ => 0,
    forced_sum := fun _ => 0,
    last_buffer_len := fun _ => 0,
    san_q_sum := fun _ => 0,
    last_trade_price := none,
    state_by_stream := fun _ => .TRUSTED,
    reason_by_stream := fun _ => "" }

/-- Pointwise update of a per-stream map. -/
def updStream {α : Type} (f : Stream → α) (s : Stream) (v : α) : Stream → α :=
  fun t => if t = s then v else f t

/-- `DataTrustPolicy.on_batch` (lines 45–57): append the alignment record,
bump the running sums, remember the buffer length, then trim the window to
`window_events` from the left (`_trim_align`), subtracting what fell out. -/
def TrustState.on_batch (st : TrustState) (cfg : TrustConfig)
    (stream : Stream) (stats : AlignStats) : TrustState :=
  let rec1 : ℕ × ℕ × ℕ × ℕ :=
    (stats.emitted, stats.late, if stats.forced_flush then 1 else 0,
     stats.buffer_len)
  let w1 := st.align_window stream ++ [rec1]
  let k := w1.length - cfg.window_events
  let dropped := w1.take k
  { st with
    align_window := updStream st.align_window stream (w1.drop k),
    emitted_sum := updStream st.emitted_sum stream
      (st.emitted_sum stream + stats.emitted -
        (dropped.map (fun x => (x.1 : ℤ))).sum),
    late_sum := updStream st.late_sum stream
      (st.late_sum stream + stats.late -
        (dropped.map (fun x => (x.2.1 : ℤ))).sum),
    forced_sum := updStream st.forced_sum stream
      (st.forced_sum stream + (if stats.forced_flush then 1 else 0) -
        (dropped.map (fun x => (x.2.2.1 : ℤ))).sum),
    last_buffer_len := updStream st.last_buffer_len stream stats.buffer_len }

/-- `_eval_stream` (lines 71–167). Reason strings carry the fixed tag of
each branch (numeric f-string interpolation abbreviated); every literal
reason word checked by the spec (`crossed_market`, `quarantine`, …) is kept
verbatim. Returns the verdict, the joined reason, and the updated
`_last_trade_price` (mutated inside the TRADES branch, line 159). -/
def evalStream (cfg : TrustConfig) (st : TrustState) (stream : Stream)
    (sanitization : SanitizationState) (ev : Event) (top : BookTop) :
    DataTrustState × String × Option ℚ :=
  let deadOOO : List String :=
    match st.last_event_ts stream with
    | some t => if t < t then ["out_of_order_ts"] else []
    | none => []
  let deadDup : List String :=
    match st.last_event_id stream with
    | some _ => ["duplicate_event"]
    | none => []
  let san_total := (st.san_q_window stream).length
  let q_rate : ℚ :=
    if san_total = 0 then 0 else (st.san_q_sum stream : ℚ) / san_total
  let emitted : ℤ := max 1 (st.emitted_sum stream)
  let late_rate : ℚ := (st.late_sum stream : ℚ) / (emitted : ℚ)
  let forced_rate : ℚ := (st.forced_sum stream : ℚ) / (emitted : ℚ)
  let buf := st.last_buffer_len stream
  let u1 : List String :=
    (if q_rate ≥ cfg.quarantine_untrusted_rate then ["q_rate"] else []) ++
    (if late_rate ≥ cfg.late_untrusted_rate then ["late_rate"] else []) ++
    (if forced_rate ≥ cfg.forced_flush_untrusted_rate then ["forced_rate"]
     else []) ++
    (if buf ≥ cfg.buffer_len_untrusted then ["buffer_len"] else [])
  let d1 : List String :=
    deadOOO ++ deadDup ++
    (if sanitization = .QUARANTINE then ["quarantine"] else []) ++
    (if late_rate ≥ cfg.late_degraded_rate then ["late_rate"] else []) ++
    (if forced_rate ≥ cfg.forced_flush_degraded_rate then ["forced_rate"]
     else []) ++
    (if buf ≥ cfg.buffer_len_degraded then ["buffer_len"] else [])
  let bookU : List String :=
    if stream = .orderbook then
      match top.best_bid, top.best_ask with
      | some bid, some ask => if bid ≥ ask then ["crossed_market"] else []
      | _, _ => []
    else []
  let bookD : List String :=
    if stream = .orderbook then
      match top.best_bid, top.best_ask with
      | some bid, some ask =>
        if (bid + ask) / 2 > 0 ∧
            (ask - bid) / ((bid + ask) / 2) * 10000 > cfg.spread_explode_bps
        then ["spread_explode_bps"] else []
      | _, _ => []
    else []
  let tradePrice : Option ℚ :=
    if stream = .trades then
      match pyGet ev.data "price" with
      | some (.vnum p) => some p
      | _ => none
    else none
  let tradeU : List String :=
    match tradePrice with
    | some p =>
      match top.best_bid, top.best_ask, top.mid with
      | some _, some _, some m =>
        if |p - m| / m * 10000 ≥ cfg.fat_finger_untrusted_bps then
          ["fat_finger_mid_bps"] else []
      | _, _, _ => []
    | none => []
  let tradeD : List String :=
    (match tradePrice with
     | some p =>
       match top.best_bid, top.best_ask, top.mid with
       | some _, some _, some m =>
         if ¬ (|p - m| / m * 10000 ≥ cfg.fat_finger_untrusted_bps) ∧
             |p - m| / m * 10000 ≥ cfg.fat_finger_degraded_bps then
           ["fat_finger_mid_bps"] else []
       | _, _, _ => []
     | none => []) ++
    (match tradePrice, st.last_trade_price with
     | some p, some lp =>
       if 0 < lp ∧ |p - lp| / lp * 10000 ≥ cfg.trade_jump_degraded_bps then
         ["trade_jump_bps"] else []
     | _, _ => [])
  let newLastTrade :=
    match tradePrice with
    | some p => some p
    | none => st.last_trade_price
  let untrusted := u1 ++ bookU ++ tradeU
  let degraded := d1 ++ bookD ++ tradeD
  if untrusted ≠ [] then
    (.UNTRUSTED, String.intercalate " | " untrusted, newLastTrade)
  else if degraded ≠ [] then
    (.DEGRADED, String.intercalate " | " degraded, newLastTrade)
  else (.TRUSTED, "", newLastTrade)

/-- `_reduce_global` (lines 169–188): iterate the per-stream verdicts in
dict insertion order (the `Stream` enum order); any UNTRUSTED stream wins,
else any DEGRADED; reasons join the non-empty `"<stream>:<reason>"` parts,
falling back to `"untrusted"`/`"degraded"`. -/
def reduceGlobal (st : TrustState) : DataTrustState × String :=
  let untrusted := streamOrder.filter
    (fun s => st.state_by_stream s = .UNTRUSTED)
  let degraded := streamOrder.filter
    (fun s => st.state_by_stream s = .DEGRADED)
  if untrusted ≠ [] then
    let reason := String.intercalate ", "
      ((untrusted.filter (fun s => st.reason_by_stream s ≠ "")).map
        (fun s => s.value ++ ":" ++ st.reason_by_stream s))
    (.UNTRUSTED, if reason = "" then "untrusted" else reason)
  else if degraded ≠ [] then
    let reason := String.intercalate ", "
      ((degraded.filter (fun s => st.reason_by_stream s ≠ "")).map
        (fun s => s.value ++ ":" ++ st.reason_by_stream s))
    (.DEGRADED, if reason = "" then "degraded" else reason)
  else (.TRUSTED, "")

/-- `DataTrustPolicy.on_event` (lines 59–69): append the quarantine flag and
trim (`_trim_san`), evaluate the stream (which also updates
`_last_trade_price`), store the verdict/reason, and return the global
reduction. `top` is the shared replayer's current `snapshot()`. -/
def TrustState.on_event (st : TrustState) (cfg : TrustConfig)
    (stream : Stream) (sanitization : SanitizationState) (ev : Event)
    (top : BookTop) : TrustState × DataTrustState × String :=
  let is_q : ℕ := if sanitization = .QUARANTINE then 1 else 0
  let qw1 := st.san_q_window stream ++ [is_q]
  let k := qw1.length - cfg.window_events
  let dropped := qw1.take k
  let st1 :=
    { st with
      san_q_window := updStream st.san_q_window stream (qw1.drop k),
      san_q_sum := updStream st.san_q_sum stream
        (st.san_q_sum stream + is_q - (dropped.map (fun x => (x : ℤ))).sum) }
  let r := evalStream cfg st1 stream sanitization ev top
  let st2 :=
    { st1 with
      last_trade_price := r.2.2,
      state_by_stream := updStream st1.state_by_stream stream r.1,
      reason_by_stream := updStream st1.reason_by_stream stream r.2.1 }
  let g := reduceGlobal st2
  (st2, g.1, g.2)

/-- `HypothesisPolicy` configuration (`hypothesis.py`, lines 20–23;
`stable_min_duration_ms * 1000`). -/
structure HypoConfig where
  weak_price_diverge_bps : ℚ
  invalid_price_diverge_bps : ℚ
  stable_min_duration_us : ℤ
deriving DecidableEq, Repr

/-- `HypothesisPolicy` mutable state (lines 24–30): hysteresis state,
stabilization anchor, and the last non-null ticker prices (raw values). -/
structure HypoState where
  state : HypothesisState
  stable_since : Option ℤ
  last_mark : Option Val
  last_index : Option Val
  last_last : Option Val
deriving DecidableEq, Repr

/-- Initial state is INVALID with no stabilization anchor. -/
def HypoState.init : HypoState :=
  { state := .INVALID, stable_since := none,
    last_mark := none, last_index := none, last_last := none }

/-- The `trigger_prefix` per stream (lines 35–58). -/
def hypoPrefix : Stream → String
  | .ticker => "tickers"
  | .orderbook => "orderbook"
  | .liquidations => "liquidations"
  | .trades => "trade"

/-- `len(list(Stream))`: the consensus gate cardinality. -/
def streamCount : ℕ := streamOrder.length

/-- The TICKER cache update of `verify` (lines 36–47): the three
`data[...]` subscripts raise `KeyError` on an absent key; non-null values
overwrite the cache. Other streams leave the state untouched. -/
def cacheStep (st : HypoState) (ev : Event) : Except PyErr HypoState :=
  match ev.stream with
  | .ticker =>
    match getItem ev.data "mark_price" with
    | .error e => .error e
    | .ok mp =>
      match getItem ev.data "index_price" with
      | .error e => .error e
      | .ok ip =>
        match getItem ev.data "last_price" with
        | .error e => .error e
        | .ok lp =>
          .ok { st with
            last_mark := if mp ≠ .vnull then some mp else st.last_mark,
            last_index := if ip ≠ .vnull then some ip else st.last_index,
            last_last := if lp ≠ .vnull then some lp else st.last_last }
  | _ => .ok st

/-- `_collect_prices` (lines 94–116): `lob_mid` when both book sides exist
(raw `top.mid`, null encoded as `vnull`), then the cached mark/index/last,
then — for a trade or liquidation — the event's own non-null price
(`data["price"]` raises on an absent key). -/
def collectPrices (top : BookTop) (st : HypoState) (ev : Event) :
    Except PyErr (List (String × Val)) :=
  let p0 : List (String × Val) :=
    match top.best_bid, top.best_ask with
    | some _, some _ =>
      [("lob_mid", match top.mid with
                   | some m => .vnum m
                   | none => .vnull)]
    | _, _ => []
  let p1 := p0 ++ (match st.last_mark with
                   | some v => [("mark", v)]
                   | none => [])
  let p2 := p1 ++ (match st.last_index with
                   | some v => [("index", v)]
                   | none => [])
  let p3 := p2 ++ (match st.last_last with
                   | some v => [("last", v)]
                   | none => [])
  if ev.stream = .trades ∨ ev.stream = .liquidations then
    match getItem ev.data "price" with
    | .error e => .error e
    | .ok v =>
      .ok (p3 ++ (if v ≠ .vnull then [(ev.stream.value, v)] else []))
  else .ok p3

/-- The admitted witnesses of `_consensus` (line 119): positive numeric
values, in collection order. -/
def consensusKeys (prices : List (String × Val)) : List (String × ℚ) :=
  prices.filterMap (fun kv =>
    match kv.2 with
    | .vnum q => if 0 < q then some (kv.1, q) else none
    | _ => none)

/-- All pairwise divergences `|p_i − p_j| / |p_j| · 10 000` for `i < j` in
collection order (lines 126–133). -/
def pairsBps : List (String × ℚ) → List ℚ
  | [] => []
  | x :: xs => xs.map (fun y => |x.2 - y.2| / |y.2| * 10000) ++ pairsBps xs

/-- One `verify` call's outcome: the successor state, the returned state,
the reason (numeric interpolation abbreviated), the consensus divergence
(`none` when no consensus was computed), and a raised error if any. -/
structure HypoStepResult where
  state' : HypoState
  ret : HypothesisState
  reason : String
  worst : Option ℚ
  err : Option PyErr
deriving Repr

/-- The hysteresis tail of `verify` (lines 68–92), given the consensus
divergence `worst`: at or above `invalid_price_diverge_bps` → INVALID and
reset; at or above `weak_price_diverge_bps` → WEAKENING and reset; otherwise
anchor `stable_since` (to `now_us` when unset) and move to VALID only once
`now_us - stable_since` reaches `stable_min_duration_us`. -/
def hypoResolve (cfg : HypoConfig) (st0 : HypoState) (pfx : String)
    (worst : ℚ) (now_us : ℤ) : HypoStepResult :=
  if worst ≥ cfg.invalid_price_diverge_bps then
    { state' := { st0 with state := .INVALID, stable_since := none },
      ret := .INVALID, reason := pfx ++ ":worst_bps", worst := some worst,
      err := none }
  else if worst ≥ cfg.weak_price_diverge_bps then
    { state' := { st0 with state := .WEAKENING, stable_since := none },
      ret := .WEAKENING, reason := pfx ++ ":worst_bps", worst := some worst,
      err := none }
  else
    match st0.stable_since with
    | none =>
      if now_us - now_us < cfg.stable_min_duration_us then
        { state' := { st0 with stable_since := some now_us },
          ret := st0.state, reason := pfx ++ ":stabilizing",
          worst := some worst, err := none }
      else
        { state' := { st0 with stable_since := some now_us, state := .VALID },
          ret := .VALID, reason := pfx ++ ":stable_us", worst := some worst,
          err := none }
    | some s =>
      if now_us - s < cfg.stable_min_duration_us then
        { state' := st0, ret := st0.state, reason := pfx ++ ":stabilizing",
          worst := some worst, err := none }
      else
        { state' := { st0 with state := .VALID }, ret := .VALID,
          reason := pfx ++ ":stable_us", worst := some worst, err := none }

/-- `HypothesisPolicy.verify` (lines 32–92): ticker cache update (with its
possible `KeyError`s), witness collection, the `≥ len(list(Stream))`
consensus gate (insufficient sources keep the current state), then the
hysteresis tail on `worst = max(pairwise bps, initialised to -1)`. -/
def verifyStep (cfg : HypoConfig) (top : BookTop) (st : HypoState)
    (ev : Event) (now_us : ℤ) : HypoStepResult :=
  match cacheStep st ev with
  | .error e =>
    { state' := st, ret := st.state, reason := "", worst := none,
      err := some e }
  | .ok st0 =>
    match collectPrices top st0 ev with
    | .error e =>
      { state' := st0, ret := st0.state, reason := "", worst := none,
        err := some e }
    | .ok prices =>
      if (consensusKeys prices).length < streamCount then
        { state' := st0, ret := st0.state,
          reason := hypoPrefix ev.stream ++ ":no_change:insufficient_sources",
          worst := none, err := none }
      else
        hypoResolve cfg st0 (hypoPrefix ev.stream)
          ((pairsBps (consensusKeys prices)).foldl max (-1)) now_us

/-- A representative trust configuration for scenario S3 (thresholds high
enough that no rate/buffer reason fires on a clean short run). -/
def c5TrustCfg : TrustConfig :=
  { window_events := 256, quarantine_untrusted_rate := 1/2,
    late_degraded_rate := 1/2, late_untrusted_rate := 4/5,
    forced_flush_degraded_rate := 1/5, forced_flush_untrusted_rate := 1/2,
    buffer_len_degraded := 64, buffer_len_untrusted := 256,
    spread_explode_bps := 50, fat_finger_untrusted_bps := 300,
    fat_finger_degraded_bps := 100, trade_jump_degraded_bps := 50 }

/-- Hypothesis config used in the scenarios. -/
def c5HypoCfg : HypoConfig :=
  { weak_price_diverge_bps := 10, invalid_price_diverge_bps := 100,
    stable_min_duration_us := 1000000 }

/-- Alignment stats of an event passed straight through (`emitted=1`). -/
def passStats : AlignStats :=
  { pushed := 1, emitted := 1, late := 0, forced_flush := false,
    buffer_len := 0 }

/-- S3 snapshot row: bid 100. -/
def c5_ob1 : Event :=
  { stream := .orderbook, exchange := some "binance-futures",
    symbol := some "btcusdt", event_ts := some 10, ingest_ts := some 10,
    event_id := none,
    data := [("is_snapshot", .vbool true), ("side", .vstr "bid"),
             ("price", .vnum 100), ("amount", .vnum 1)] }

/-- S3 snapshot row: ask 99 (leaves the book crossed). -/
def c5_ob2 : Event :=
  { stream := .orderbook, exchange := some "binance-futures",
    symbol := some "btcusdt", event_ts := some 20, ingest_ts := some 20,
    event_id := none,
    data := [("is_snapshot", .vbool true), ("side", .vstr "ask"),
             ("price", .vnum 99), ("amount", .vnum 1)] }

/-- S3 follow-up trade at the (crossed) mid 99.5. -/
def c5_tr : Event :=
  { stream := .trades, exchange := some "binance-futures",
    symbol := some "btcusdt", event_ts := some 30, ingest_ts := some 30,
    event_id := none,
    data := [("price", .vnum (199/2)), ("amount", .vnum 1),
             ("side", .vstr "buy")] }

/-- Replayer state after the bid row. -/
def c5_r1 : Replayer :=
  { orderbook := { depth_limit := 5, bids := [(100, 1)], asks := [],
                   last_update_us := some 0, last_event_ts := some 10 },
    snapshot_active := true }

/-- Replayer state after the ask row (crossed book). -/
def c5_r2 : Replayer :=
  { orderbook := { depth_limit := 5, bids := [(100, 1)], asks := [(99, 1)],
                   last_update_us := some 1, last_event_ts := some 20 },
    snapshot_active := true }

/-- Trust state after the bid row (engine order: replay, then trust). -/
def c5_t1 : TrustState :=
  (((TrustState.init.on_batch c5TrustCfg .orderbook passStats).on_event
    c5TrustCfg .orderbook .ACCEPT c5_ob1 c5_r1.snapshot)).1

/-- Trust call on the ask row, evaluated against the crossed book. -/
def c5_t2Call : TrustState × DataTrustState × String :=
  ((c5_t1.on_batch c5TrustCfg .orderbook passStats).on_event
    c5TrustCfg .orderbook .ACCEPT c5_ob2 c5_r2.snapshot)

/-- Trust call on the next TRADES event. -/
def c5_t3Call : TrustState × DataTrustState × String :=
  ((c5_t2Call.1.on_batch c5TrustCfg .trades passStats).on_event
    c5TrustCfg .trades .ACCEPT c5_tr c5_r2.snapshot)

/-- Hypothesis state after the two order-book rows (both calls return
`insufficient_sources`, keeping INVALID). -/
def c5_h2 : HypoState :=
  (verifyStep c5HypoCfg c5_r2.snapshot
    (verifyStep c5HypoCfg c5_r1.snapshot HypoState.init c5_ob1 0).state'
    c5_ob2 1).state'

/-- C5 (scenario S3): after the snapshot leaves best_bid=100 and
best_ask=99, the orderbook stream's stored verdict is UNTRUSTED with
`crossed_market`, so the data-trust evaluation of the next TRADES event
returns the global verdict UNTRUSTED with a reason containing
`crossed_market`; the hypothesis run stays INVALID (insufficient sources),
and the resulting decision is HALTED. -/
theorem c5_crossed_market_halts :
    (Replayer.init 5).on_event c5_ob1 0 = .ok c5_r1 ∧
    c5_r1.on_event c5_ob2 1 = .ok c5_r2 ∧
    c5_r2.snapshot =
      { best_bid := some 100, best_ask := some 99, mid := some (199/2),
        spread := some (-1) } ∧
    c5_t3Call.2.1 = .UNTRUSTED ∧
    c5_t3Call.2.2 = "orderbook:crossed_market" ∧
    "crossed_market".data <:+: c5_t3Call.2.2.data ∧
    (verifyStep c5HypoCfg c5_r2.snapshot c5_h2 c5_tr 2).ret = .INVALID ∧
    DecisionMachine.compute .UNTRUSTED
      (verifyStep c5HypoCfg c5_r2.snapshot c5_h2 c5_tr 2).ret = .HALTED := by
  refine ⟨rfl, rfl, ?_, ?_, ?_, ?_, ?_, ?_⟩
  · with_unfolding_all rfl
  · with_unfolding_all rfl
  · with_unfolding_all rfl
  · show "crossed_market".data <:+: c5_t3Call.2.2.data
    rw [show c5_t3Call.2.2 = "orderbook:crossed_market" by with_unfolding_all rfl]
    exact ⟨"orderbook:".data, [], by decide⟩
  · with_unfolding_all rfl
  · with_unfolding_all rfl

lemma cacheStep_preserves {st : HypoState} {ev : Event} {st0 : HypoState}
    (h : cacheStep st ev = .ok st0) :
    st0.stable_since = st.stable_since ∧ st0.state = st.state := by
  unfold cacheStep at h
  split at h
  · split at h
    · exact absurd h (by simp)
    · split at h
      · exact absurd h (by simp)
      · split at h
        · exact absurd h (by simp)
        · rw [Except.ok.injEq] at h
          rw [← h]
          exact ⟨rfl, rfl⟩
  · rw [Except.ok.injEq] at h
    rw [← h]
    exact ⟨rfl, rfl⟩

lemma verifyStep_err_cache {cfg : HypoConfig} {top : BookTop} {st : HypoState}
    {ev : Event} {now : ℤ} {e : PyErr} (hc : cacheStep st ev = .error e) :
    verifyStep cfg top st ev now =
      { state' := st, ret := st.state, reason := "", worst := none,
        err := some e } := by
  unfold verifyStep
  rw [hc]

lemma verifyStep_err_prices {cfg : HypoConfig} {top : BookTop}
    {st st0 : HypoState} {ev : Event} {now : ℤ} {e : PyErr}
    (hc : cacheStep st ev = .ok st0)
    (hp : collectPrices top st0 ev = .error e) :
    verifyStep cfg top st ev now =
      { state' := st0, ret := st0.state, reason := "", worst := none,
        err := some e } := by
  unfold verifyStep
  rw [hc]
  dsimp only
  rw [hp]

lemma verifyStep_insufficient {cfg : HypoConfig} {top : BookTop}
    {st st0 : HypoState} {ev : Event} {now : ℤ}
    {prices : List (String × Val)} (hc : cacheStep st ev = .ok st0)
    (hp : collectPrices top st0 ev = .ok prices)
    (hlen : (consensusKeys prices).length < streamCount) :
    verifyStep cfg top st ev now =
      { state' := st0, ret := st0.state,
        reason := hypoPrefix ev.stream ++ ":no_change:insufficient_sources",
        worst := none, err := none } := by
  unfold verifyStep
  rw [hc]
  dsimp only
  rw [hp]
  dsimp only
  rw [if_pos hlen]

lemma verifyStep_consensus {cfg : HypoConfig} {top : BookTop}
    {st st0 : HypoState} {ev : Event} {now : ℤ}
    {prices : List (String × Val)} (hc : cacheStep st ev = .ok st0)
    (hp : collectPrices top st0 ev = .ok prices)
    (hlen : ¬ (consensusKeys prices).length < streamCount) :
    verifyStep cfg top st ev now =
      hypoResolve cfg st0 (hypoPrefix ev.stream)
        ((pairsBps (consensusKeys prices)).foldl max (-1)) now := by
  unfold verifyStep
  rw [hc]
  dsimp only
  rw [hp]
  dsimp only
  rw [if_neg hlen]

lemma hypoResolve_worst (cfg : HypoConfig) (st0 : HypoState) (pfx : String)
    (worst : ℚ) (now : ℤ) :
    (hypoResolve cfg st0 pfx worst now).worst = some worst := by
  unfold hypoResolve
  split
  · rfl
  · split
    · rfl
    · rcases hss : st0.stable_since with _ | s <;> dsimp only <;> split <;> rfl

lemma hypoResolve_cases (cfg : HypoConfig) (st0 : HypoState) (pfx : String)
    (worst : ℚ) (now : ℤ) :
    ((hypoResolve cfg st0 pfx worst now).state'.stable_since = none ∧
     (hypoResolve cfg st0 pfx worst now).state'.state ≠ .VALID) ∨
    (worst < cfg.weak_price_diverge_bps ∧
     (hypoResolve cfg st0 pfx worst now).state'.stable_since =
       some (st0.stable_since.getD now)) := by
  unfold hypoResolve
  split
  · exact Or.inl ⟨rfl, by intro h; exact HypothesisState.noConfusion h⟩
  · split
    · exact Or.inl ⟨rfl, by intro h; exact HypothesisState.noConfusion h⟩
    · next hweak =>
      rcases hss : st0.stable_since with _ | s
      · dsimp only
        split
        · exact Or.inr ⟨lt_of_not_ge hweak, rfl⟩
        · exact Or.inr ⟨lt_of_not_ge hweak, rfl⟩
      · dsimp only
        split
        · exact Or.inr ⟨lt_of_not_ge hweak, by simp [hss]⟩
        · exact Or.inr ⟨lt_of_not_ge hweak, by simp [hss]⟩

lemma hypoResolve_to_valid (cfg : HypoConfig) (st0 : HypoState) (pfx : String)
    (worst : ℚ) (now : ℤ) (hpre : st0.state ≠ .VALID)
    (hval : (hypoResolve cfg st0 pfx worst now).state'.state = .VALID) :
    worst < cfg.weak_price_diverge_bps ∧
    ((∃ s, st0.stable_since = some s ∧
      cfg.stable_min_duration_us ≤ now - s) ∨
     (st0.stable_since = none ∧ cfg.stable_min_duration_us ≤ 0)) := by
  unfold hypoResolve at hval
  split at hval
  · exact absurd hval (by intro h; exact HypothesisState.noConfusion h)
  · split at hval
    · exact absurd hval (by intro h; exact HypothesisState.noConfusion h)
    · next hweak =>
      rcases hss : st0.stable_since with _ | s
      · rw [hss] at hval
        dsimp only at hval
        split at hval
        · exact absurd hval hpre
        · next hdur =>
          exact ⟨lt_of_not_ge hweak, Or.inr ⟨rfl, by omega⟩⟩
      · rw [hss] at hval
        dsimp only at hval
        split at hval
        · exact absurd hval hpre
        · next hdur =>
          exact ⟨lt_of_not_ge hweak, Or.inl ⟨s, rfl, by omega⟩⟩

lemma verifyStep_cases (cfg : HypoConfig) (top : BookTop) (st : HypoState)
    (ev : Event) (now : ℤ) :
    ((verifyStep cfg top st ev now).worst = none ∧
     (verifyStep cfg top st ev now).state'.stable_since = st.stable_since ∧
     (verifyStep cfg top st ev now).state'.state = st.state) ∨
    (∃ w, (verifyStep cfg top st ev now).worst = some w ∧
      (verifyStep cfg top st ev now).state'.stable_since = none) ∨
    (∃ w, (verifyStep cfg top st ev now).worst = some w ∧
      w < cfg.weak_price_diverge_bps ∧
      (verifyStep cfg top st ev now).state'.stable_since =
        some (st.stable_since.getD now)) := by
  cases hc : cacheStep st ev with
  | error e =>
    rw [verifyStep_err_cache hc]
    exact Or.inl ⟨rfl, rfl, rfl⟩
  | ok st0 =>
    obtain ⟨hss, hst⟩ := cacheStep_preserves hc
    cases hp : collectPrices top st0 ev with
    | error e =>
      rw [verifyStep_err_prices hc hp]
      exact Or.inl ⟨rfl, hss, hst⟩
    | ok prices =>
      by_cases hlen : (consensusKeys prices).length < streamCount
      · rw [verifyStep_insufficient hc hp hlen]
        exact Or.inl ⟨rfl, hss, hst⟩
      · rw [verifyStep_consensus hc hp hlen]
        rcases hypoResolve_cases cfg st0 (hypoPrefix ev.stream)
            ((pairsBps (consensusKeys prices)).foldl max (-1)) now with
          ⟨h1, _⟩ | ⟨h1, h2⟩
        · exact Or.inr (Or.inl ⟨_, hypoResolve_worst _ _ _ _ _, h1⟩)
        · refine Or.inr (Or.inr ⟨_, hypoResolve_worst _ _ _ _ _, h1, ?_⟩)
          rw [h2, hss]

lemma verifyStep_to_valid (cfg : HypoConfig) (top : BookTop) (st : HypoState)
    (ev : Event) (now : ℤ) (hpre : st.state ≠ .VALID)
    (hval : (verifyStep cfg top st ev now).state'.state = .VALID) :
    ∃ w, (verifyStep cfg top st ev now).worst = some w ∧
      w < cfg.weak_price_diverge_bps ∧
      ((∃ s, st.stable_since = some s ∧
        cfg.stable_min_duration_us ≤ now - s) ∨
       (st.stable_since = none ∧ cfg.stable_min_duration_us ≤ 0)) := by
  cases hc : cacheStep st ev with
  | error e =>
    rw [verifyStep_err_cache hc] at hval
    exact absurd hval hpre
  | ok st0 =>
    obtain ⟨hss, hst⟩ := cacheStep_preserves hc
    cases hp : collectPrices top st0 ev with
    | error e =>
      rw [verifyStep_err_prices hc hp] at hval
      exact absurd (hst ▸ hval) hpre
    | ok prices =>
      by_cases hlen : (consensusKeys prices).length < streamCount
      · rw [verifyStep_insufficient hc hp hlen] at hval
        exact absurd (hst ▸ hval) hpre
      · rw [verifyStep_consensus hc hp hlen] at hval ⊢
        obtain ⟨hwlt, hrest⟩ := hypoResolve_to_valid cfg st0
          (hypoPrefix ev.stream)
          ((pairsBps (consensusKeys prices)).foldl max (-1)) now
          (hst ▸ hpre) hval
        refine ⟨_, hypoResolve_worst _ _ _ _ _, hwlt, ?_⟩
        rw [hss] at hrest
        exact hrest

/-- One `verify` call's inputs: the book top read through the shared
replayer, the event, and the engine-supplied clock value. -/
structure HypoInput where
  top : BookTop
  ev : Event
  now : ℤ
deriving Repr

/-- The policy state before call `n` of a run started from `HypoState.init`. -/
def hypoStateAt (cfg : HypoConfig) (inputs : List HypoInput) : ℕ → HypoState
  | 0 => HypoState.init
  | n + 1 =>
    match inputs.get? n with
    | none => hypoStateAt cfg inputs n
    | some inp =>
      (verifyStep cfg inp.top (hypoStateAt cfg inputs n) inp.ev inp.now).state'

/-- The consensus divergence computed at call `n` (`none` when the call did
not reach consensus, raised, or does not exist). -/
def hypoWorstAt (cfg : HypoConfig) (inputs : List HypoInput) (n : ℕ) :
    Option ℚ :=
  match inputs.get? n with
  | none => none
  | some inp =>
    (verifyStep cfg inp.top (hypoStateAt cfg inputs n) inp.ev inp.now).worst

/-- The clock value passed to call `n`. -/
def hypoNowAt (inputs : List HypoInput) (n : ℕ) : ℤ :=
  match inputs.get? n with
  | none => 0
  | some inp => inp.now

lemma hypo_stable_since_spec (cfg : HypoConfig) (inputs : List HypoInput) :
    ∀ (n : ℕ) (s : ℤ), (hypoStateAt cfg inputs n).stable_since = some s →
      ∃ j, j < n ∧ hypoNowAt inputs j = s ∧
        ∀ i, j ≤ i → i < n → ∀ w, hypoWorstAt cfg inputs i = some w →
          w < cfg.weak_price_diverge_bps := by
  intro n
  induction n with
  | zero =>
    intro s hs
    simp [hypoStateAt, HypoState.init] at hs
  | succ n ih =>
    intro s hs
    rw [hypoStateAt] at hs
    cases hin : inputs.get? n with
    | none =>
      rw [hin] at hs
      dsimp only at hs
      obtain ⟨j, hj, hnow, hall⟩ := ih s hs
      refine ⟨j, by omega, hnow, ?_⟩
      intro i hji hi w hw
      rcases Nat.lt_or_ge i n with h1 | h1
      · exact hall i hji h1 w hw
      · have hieq : i = n := by omega
        rw [hieq] at hw
        simp only [hypoWorstAt, hin] at hw
        exact Option.noConfusion hw
    | some inp =>
      rw [hin] at hs
      dsimp only at hs
      rcases verifyStep_cases cfg inp.top (hypoStateAt cfg inputs n) inp.ev
          inp.now with ⟨hw, hpres, _⟩ | ⟨w, hw, hnone⟩ | ⟨w, hw, hwlt, hset⟩
      · rw [hpres] at hs
        obtain ⟨j, hj, hnow, hall⟩ := ih s hs
        refine ⟨j, by omega, hnow, ?_⟩
        intro i hji hi w' hw'
        rcases Nat.lt_or_ge i n with h1 | h1
        · exact hall i hji h1 w' hw'
        · have hieq : i = n := by omega
          rw [hieq] at hw'
          simp only [hypoWorstAt, hin] at hw'
          rw [hw'] at hw
          exact absurd hw (by simp)
      · rw [hnone] at hs
        exact absurd hs (by simp)
      · rw [hset] at hs
        cases hss : (hypoStateAt cfg inputs n).stable_since with
        | some s0 =>
          rw [hss] at hs
          simp only [Option.getD] at hs
          obtain ⟨j, hj, hnow, hall⟩ := ih s0 hss
          have hs0 : s0 = s := Option.some_inj.mp hs
          refine ⟨j, by omega, hs0 ▸ hnow, ?_⟩
          intro i hji hi w' hw'
          rcases Nat.lt_or_ge i n with h1 | h1
          · exact hall i hji h1 w' hw'
          · have hieq : i = n := by omega
            rw [hieq] at hw'
            simp only [hypoWorstAt, hin] at hw'
            rw [hw'] at hw
            have hww : w' = w := Option.some_inj.mp hw
            rw [hww]
            exact hwlt
        | none =>
          rw [hss] at hs
          simp only [Option.getD] at hs
          have hsnow : s = inp.now := (Option.some_inj.mp hs).symm
          refine ⟨n, by omega, ?_, ?_⟩
          · simp only [hypoNowAt, hin]
            rw [hsnow]
          · intro i hji hi w' hw'
            have hieq : i = n := by omega
            rw [hieq] at hw'
            simp only [hypoWorstAt, hin] at hw'
            rw [hw'] at hw
            have hww : w' = w := Option.some_inj.mp hw
            rw [hww]
            exact hwlt

/-- C7: the initial hypothesis state is INVALID, and for every run of
`verify` calls, whenever a call transitions the state from a non-VALID state
(WEAKENING or INVALID) to VALID, there is an earlier call `j` whose clock
value is at least `stable_min_duration_us` before the transition's clock
value such that every consensus evaluation from `j` through the transition
(insufficient-source and erroring calls compute no divergence) scored
`worst_bps < weak_price_diverge_bps`. -/
theorem c7_hypothesis_stabilization :
    HypoState.init.state = .INVALID ∧
    ∀ (cfg : HypoConfig) (inputs : List HypoInput) (k : ℕ),
      (hypoStateAt cfg inputs k).state ≠ .VALID →
      (hypoStateAt cfg inputs (k + 1)).state = .VALID →
      ∃ j, j ≤ k ∧
        cfg.stable_min_duration_us ≤
          hypoNowAt inputs k - hypoNowAt inputs j ∧
        ∀ i, j ≤ i → i ≤ k → ∀ w, hypoWorstAt cfg inputs i = some w →
          w < cfg.weak_price_diverge_bps := by
  refine ⟨rfl, ?_⟩
  intro cfg inputs k hpre hval
  rw [hypoStateAt] at hval
  cases hin : inputs.get? k with
  | none =>
    rw [hin] at hval
    dsimp only at hval
    exact absurd hval hpre
  | some inp =>
    rw [hin] at hval
    dsimp only at hval
    obtain ⟨w, hw, hwlt, hcase⟩ := verifyStep_to_valid cfg inp.top
      (hypoStateAt cfg inputs k) inp.ev inp.now hpre hval
    rcases hcase with ⟨s, hss, hdur⟩ | ⟨hss, hdur⟩
    · obtain ⟨j, hj, hnow, hall⟩ := hypo_stable_since_spec cfg inputs k s hss
      refine ⟨j, by omega, ?_, ?_⟩
      · rw [hnow]
        simp only [hypoNowAt, hin]
        exact hdur
      · intro i hji hik w' hw'
        rcases Nat.lt_or_ge i k with h1 | h1
        · exact hall i hji h1 w' hw'
        · have hieq : i = k := by omega
          rw [hieq] at hw'
          simp only [hypoWorstAt, hin] at hw'
          rw [hw'] at hw
          have hww : w' = w := Option.some_inj.mp hw
          rw [hww]
          exact hwlt
    · refine ⟨k, le_refl k, by omega, ?_⟩
      intro i hji hik w' hw'
      have hieq : i = k := by omega
      rw [hieq] at hw'
      simp only [hypoWorstAt, hin] at hw'
      rw [hw'] at hw
      have hww : w' = w := Option.some_inj.mp hw
      rw [hww]
      exact hwlt


/-- A ticker event carrying the three consensus prices. -/
def c7_ticker : Event :=
  { stream := .ticker, exchange := some "binance-futures",
    symbol := some "btcusdt", event_ts := some 0, ingest_ts := some 0,
    event_id := none,
    data := [("mark_price", .vnum 100), ("index_price", .vnum 100),
             ("last_price", .vnum 100)] }

/-- Two agreeing consensus evaluations 2 s apart: the first anchors
`stable_since`, the second (past `stable_min_duration_us = 1 s`) transitions
INVALID → VALID. -/
def c7Inputs : List HypoInput :=
  [{ top := { best_bid := some 100, best_ask := some 100, mid := some 100,
              spread := some 0 }, ev := c7_ticker, now := 0 },
   { top := { best_bid := some 100, best_ask := some 100, mid := some 100,
              spread := some 0 }, ev := c7_ticker, now := 2000000 }]

/-- C7 witness: the stabilization theorem instantiated on the concrete
INVALID → VALID transition of `c7Inputs` at call 1. -/
theorem c7_hypothesis_stabilization_witness :
    ((hypoStateAt c5HypoCfg c7Inputs 1).state ≠ .VALID ∧
     (hypoStateAt c5HypoCfg c7Inputs 2).state = .VALID) ∧
    ∃ j, j ≤ 1 ∧
      c5HypoCfg.stable_min_duration_us ≤
        hypoNowAt c7Inputs 1 - hypoNowAt c7Inputs j ∧
      ∀ i, j ≤ i → i ≤ 1 → ∀ w, hypoWorstAt c5HypoCfg c7Inputs i = some w →
        w < c5HypoCfg.weak_price_diverge_bps := by
  have h1 : (hypoStateAt c5HypoCfg c7Inputs 1).state = .INVALID := by
    with_unfolding_all rfl
  have h2 : (hypoStateAt c5HypoCfg c7Inputs 2).state = .VALID := by
    with_unfolding_all rfl
  have hne : (hypoStateAt c5HypoCfg c7Inputs 1).state ≠ .VALID := by
    rw [h1]
    intro h
    exact HypothesisState.noConfusion h
  exact ⟨⟨hne, h2⟩,
    c7_hypothesis_stabilization.2 c5HypoCfg c7Inputs 1 hne h2⟩

end Engine
